import Mathlib

/-!
# OTP authentication service: embedding and properties

The Go packages `internal/otp`, `internal/auth`, `internal/db` and `internal/api`
are embedded as pure functions with explicit state passing.

* A Go call that may panic returns a `GoResult`.
* A Go `error` is an `Option GoError` (`none` is `nil`).
* The Redis server reached through `redis.Client` is a finite-map state with an
  explicit clock and an explicit schedule of command failures.
* Time is a natural number: ticks of the server clock for Redis, nanoseconds since the
  epoch for tokens. Durations are integers, as Go's `time.Duration` is; the rounding
  of fractions of a clock tick by the Redis client is not modelled.
* A failed Redis command or SQL statement has no effect on the stored data.
-/

namespace Dekamond

/-! ## Go runtime -/

/-- Outcome of a Go call: a normal return, or a run-time panic. -/
inductive GoResult (α : Type) where
  | ret (a : α)
  | panic (msg : String)
  deriving DecidableEq, Repr

/-- Error values that the embedded packages can produce. -/
inductive GoError where
  /-- The sentinel `redis.Nil`: the key does not exist. -/
  | redisNil
  /-- A Redis command failed (network error, timeout, closed pool). -/
  | redisUnavailable
  /-- Redis replied `ERR value is not an integer or out of range` (or that the increment
  would overflow). -/
  | redisNotInteger
  /-- A SQL statement failed. -/
  | dbUnavailable
  /-- Token parsing: `jwt.ErrTokenMalformed`. -/
  | tokenMalformed
  /-- Token parsing: `jwt.ErrTokenUnverifiable`. -/
  | tokenUnverifiable
  /-- Token parsing: `jwt.ErrTokenSignatureInvalid`. -/
  | tokenSignatureInvalid
  /-- Claims validation: `jwt.ErrTokenExpired`. -/
  | tokenExpired
  /-- Claims validation: `jwt.ErrTokenNotValidYet`. -/
  | tokenNotValidYet
  /-- The error made by `fmt.Errorf("unexpected signing method: ...")`. -/
  | unexpectedSigningMethod
  /-- The error made by `fmt.Errorf("invalid token")`. -/
  | invalidToken
  deriving DecidableEq, Repr

/-- Go's `error` interface value; `none` is `nil`. -/
abbrev error := Option GoError

/-- Conversion of an integer to Go's `int64` (two's complement wrap-around). -/
def int64 (z : Int) : Int :=
  (z + 9223372036854775808) % 18446744073709551616 - 9223372036854775808

/-- Largest `int64`. -/
def maxInt64 : Int := 9223372036854775807

/-! ## Decimal formatting (`fmt`, `strconv`) -/

/-- The character of a decimal digit `d < 10`. -/
def digitChar (d : Nat) : Char := Char.ofNat (48 + d)

/-- Whether a character is one of `0` .. `9`. -/
def isDigit (c : Char) : Bool := 48 ≤ c.toNat && c.toNat ≤ 57

/-- The value of a decimal digit character. -/
def digitVal (c : Char) : Nat := c.toNat - 48

/-- Decimal digits of `n`, most significant first; `fuel` bounds the number of digits. -/
def natDigits : Nat → Nat → List Char
  | 0, _ => []
  | fuel + 1, n =>
    if n < 10 then [digitChar n] else natDigits fuel (n / 10) ++ [digitChar (n % 10)]

/-- Decimal digits of `n` (what `%d` prints for a non-negative number). -/
def decimal (n : Nat) : List Char := natDigits (n + 1) n

/-- Left padding with `0` up to `width` characters. -/
def zeroPad (width : Nat) (ds : List Char) : List Char :=
  List.replicate (width - ds.length) '0' ++ ds

/-- The Go call `fmt.Sprintf("%06d", v)`: sign first, then zero padding to width 6. -/
def Sprintf06d (v : Int) : String :=
  if v < 0 then ⟨'-' :: zeroPad 5 (decimal v.natAbs)⟩ else ⟨zeroPad 6 (decimal v.natAbs)⟩

/-- The Go call `fmt.Sprintf("otp:%s", phone)`. -/
def otpKey (phone : String) : String := "otp:" ++ phone

/-- The Go call `fmt.Sprintf("rate:%s", phone)`. -/
def rateKey (phone : String) : String := "rate:" ++ phone

/-- Numeric value of a non-empty string of decimal digits. -/
def decimalValue (s : String) : Option Nat :=
  if s.data ≠ [] ∧ s.data.all isDigit = true then
    some (s.data.foldl (fun acc c => acc * 10 + digitVal c) 0)
  else none

/-- Canonical decimal numeral of a natural number: digits only, no leading zero except `0`. -/
def parseNat (cs : List Char) : Option Nat :=
  if cs ≠ [] ∧ cs.all isDigit = true ∧ (cs.head? ≠ some '0' ∨ cs.length = 1) then
    some (cs.foldl (fun acc c => acc * 10 + digitVal c) 0)
  else none

/-- How Redis reads a stored string as a signed 64-bit integer (`string2ll`). -/
def parseInt64 (s : String) : Option Int :=
  match s.data with
  | '-' :: cs =>
    match parseNat cs with
    | some n => if n = 0 ∨ (9223372036854775808 : Nat) < n then none else some (-(n : Int))
    | none => none
  | cs =>
    match parseNat cs with
    | some n => if (9223372036854775807 : Nat) < n then none else some (n : Int)
    | none => none

/-- How Redis writes a signed integer as a string (`ll2string`). -/
def formatInt (z : Int) : String :=
  if z < 0 then ⟨'-' :: decimal z.natAbs⟩ else ⟨decimal z.natAbs⟩

/-! ## The Redis server behind `redis.Client` -/

namespace redis

/-- A stored string with its optional absolute expiry time. -/
structure Entry where
  val : String
  expireAt : Option Nat
  deriving DecidableEq, Repr

/-- Whether an entry is still alive at time `now`. -/
def Entry.alive (e : Entry) (now : Nat) : Bool :=
  match e.expireAt with
  | none => true
  | some t => decide (now < t)

/-- State reached through the client: the server clock, the key space, and the outcome
schedule of the coming commands (`true`: the command fails without reaching the server;
an exhausted schedule means success). -/
structure Client where
  now : Nat
  data : String → Option Entry
  faults : List Bool

/-- An empty server at time 0 on which every command succeeds. -/
def Client.empty : Client := { now := 0, data := fun _ => none, faults := [] }

/-- Time passes on the server. -/
def Client.advance (c : Client) (d : Nat) : Client := { c with now := c.now + d }

/-- The entry visible under `key`: stored and not expired. -/
def Client.lookup (c : Client) (key : String) : Option Entry :=
  match c.data key with
  | some e => if e.alive c.now then some e else none
  | none => none

/-- Takes the next outcome off the schedule. -/
def Client.next (c : Client) : Bool × Client :=
  match c.faults with
  | [] => (false, c)
  | b :: rest => (b, { c with faults := rest })

/-- Redis `GET key`. -/
def Client.Get (c : Client) (key : String) : (String × error) × Client :=
  match c.next with
  | (true, c1) => (("", some .redisUnavailable), c1)
  | (false, c1) =>
    match c1.lookup key with
    | some e => ((e.val, none), c1)
    | none => (("", some .redisNil), c1)

/-- Redis `SET key value` as go-redis sends it: with an expiry for a positive duration,
with `KEEPTTL` for the duration `-1`, and without expiry otherwise. -/
def Client.Set (c : Client) (key value : String) (expiration : Int) : error × Client :=
  match c.next with
  | (true, c1) => (some .redisUnavailable, c1)
  | (false, c1) =>
    let exp : Option Nat :=
      if 0 < expiration then some (c1.now + expiration.toNat)
      else if expiration = -1 then (c1.lookup key).bind Entry.expireAt
      else none
    (none, { c1 with data := Function.update c1.data key (some ⟨value, exp⟩) })

/-- Redis `DEL key`. -/
def Client.Del (c : Client) (key : String) : error × Client :=
  match c.next with
  | (true, c1) => (some .redisUnavailable, c1)
  | (false, c1) => (none, { c1 with data := Function.update c1.data key none })

/-- Redis `INCR key`: an absent key counts as 0; the expiry of a live key is kept. -/
def Client.Incr (c : Client) (key : String) : (Int × error) × Client :=
  match c.next with
  | (true, c1) => ((0, some .redisUnavailable), c1)
  | (false, c1) =>
    match c1.lookup key with
    | none => ((1, none), { c1 with data := Function.update c1.data key (some ⟨formatInt 1, none⟩) })
    | some e =>
      match parseInt64 e.val with
      | none => ((0, some .redisNotInteger), c1)
      | some v =>
        if v = maxInt64 then ((0, some .redisNotInteger), c1)
        else ((v + 1, none),
          { c1 with data := Function.update c1.data key (some ⟨formatInt (v + 1), e.expireAt⟩) })

/-- Redis `EXPIRE key ttl`: a live key gets the expiry `now + ttl`; a non-positive
`ttl` deletes it. -/
def Client.Expire (c : Client) (key : String) (expiration : Int) : error × Client :=
  match c.next with
  | (true, c1) => (some .redisUnavailable, c1)
  | (false, c1) =>
    match c1.lookup key with
    | none => (none, c1)
    | some e =>
      if 0 < expiration then
        (none, { c1 with data :=
          Function.update c1.data key (some ⟨e.val, some (c1.now + expiration.toNat)⟩) })
      else (none, { c1 with data := Function.update c1.data key none })

end redis

/-! ## Package `otp` (`internal/otp/otp.go`) -/

namespace otp

/-- Outcome of `rand.Int(rand.Reader, big.NewInt(900000))`: a number, or an error with a
`nil` number. -/
inductive RandInt where
  | ok (n : Nat)
  | err
  deriving DecidableEq, Repr

/-- The struct `RedisOTP`. -/
structure RedisOTP where
  client : redis.Client
  otpTTL : Int
  rateLimit : Int
  rateLimitWindow : Int

/-- The function `generateRandomOTP`: the error of `rand.Int` is discarded, and `n.Int64()`
on the `nil` number of a failed draw panics. -/
def generateRandomOTP (rnd : RandInt) : GoResult String :=
  match rnd with
  | .ok n => .ret (Sprintf06d (int64 (int64 n + 100000)))
  | .err => .panic "runtime error: invalid memory address or nil pointer dereference"

/-- The method `RedisOTP.Generate`. -/
def RedisOTP.Generate (r : RedisOTP) (phone : String) (rnd : RandInt) :
    GoResult (String × error) × RedisOTP :=
  match generateRandomOTP rnd with
  | .panic msg => (.panic msg, r)
  | .ret code =>
    let key := otpKey phone
    match r.client.Set key code r.otpTTL with
    | (some err, c) => (.ret ("", some err), { r with client := c })
    | (none, c) => (.ret (code, none), { r with client := c })

/-- The method `RedisOTP.Validate`. -/
def RedisOTP.Validate (r : RedisOTP) (phone code : String) : (Bool × error) × RedisOTP :=
  let key := otpKey phone
  match r.client.Get key with
  | ((_, some err), c) =>
    if err = .redisNil then ((false, none), { r with client := c })
    else ((false, some err), { r with client := c })
  | ((val, none), c) =>
    if val = code then
      ((true, none), { r with client := (c.Del key).2 })
    else ((false, none), { r with client := c })

/-- The method `RedisOTP.RateLimit`; `int` is 64 bits wide, so `int(cnt)` keeps the value. -/
def RedisOTP.RateLimit (r : RedisOTP) (phone : String) : (Bool × error) × RedisOTP :=
  let key := rateKey phone
  match r.client.Incr key with
  | ((_, some err), c) => ((false, some err), { r with client := c })
  | ((cnt, none), c) =>
    let c2 := if cnt = 1 then (c.Expire key r.rateLimitWindow).2 else c
    ((decide (int64 cnt ≤ r.rateLimit), none), { r with client := c2 })

end otp

/-! ## The library `github.com/golang-jwt/jwt/v5`, as far as `internal/auth` uses it

Times are nanoseconds since the epoch. The compact serialisation (base64url over JSON,
joined by dots) is taken as injective: a token string is identified with what its three
segments decode to. The keyed hash behind the `HS*` methods is a parameter. -/

namespace jwt

/-- The duration `time.Second`, in nanoseconds. -/
def Second : Nat := 1000000000

/-- The duration `time.Hour`, in nanoseconds. -/
def Hour : Nat := 3600 * Second

/-- The function `jwt.NewNumericDate`: the time truncated to `jwt.TimePrecision`, one second. -/
def NewNumericDate (t : Nat) : Nat := t - t % Second

/-- The struct `jwt.RegisteredClaims`; an absent date is `none`. -/
structure RegisteredClaims where
  Issuer : String
  Subject : String
  Audience : List String
  ExpiresAt : Option Nat
  NotBefore : Option Nat
  IssuedAt : Option Nat
  ID : String
  deriving DecidableEq, Repr

/-- The JOSE header fields that the library reads or writes. -/
structure Header where
  typ : Option String
  alg : Option String
  deriving DecidableEq, Repr

/-- The families of signing methods that the library registers. -/
inductive SigningMethod where
  | HMAC (alg : String)
  | RSA (alg : String)
  | RSAPSS (alg : String)
  | ECDSA (alg : String)
  | Ed25519
  | None
  deriving DecidableEq, Repr

/-- The function `jwt.GetSigningMethod`: the registry of `alg` names. -/
def GetSigningMethod (alg : String) : Option SigningMethod :=
  if alg = "HS256" ∨ alg = "HS384" ∨ alg = "HS512" then some (.HMAC alg)
  else if alg = "RS256" ∨ alg = "RS384" ∨ alg = "RS512" then some (.RSA alg)
  else if alg = "PS256" ∨ alg = "PS384" ∨ alg = "PS512" then some (.RSAPSS alg)
  else if alg = "ES256" ∨ alg = "ES384" ∨ alg = "ES512" then some (.ECDSA alg)
  else if alg = "EdDSA" then some .Ed25519
  else if alg = "none" then some .None
  else none

/-- The name a signing method reports through `Alg()`. -/
def SigningMethod.Alg : SigningMethod → String
  | .HMAC alg => alg
  | .RSA alg => alg
  | .RSAPSS alg => alg
  | .ECDSA alg => alg
  | .Ed25519 => "EdDSA"
  | .None => "none"

end jwt

namespace auth

/-- The struct `Claims` of `internal/auth/token.go`. -/
structure Claims where
  Phone : String
  RegisteredClaims : jwt.RegisteredClaims
  deriving DecidableEq, Repr

/-- The zero value `Claims{}`. -/
def Claims.zero : Claims :=
  { Phone := "",
    RegisteredClaims :=
      { Issuer := "", Subject := "", Audience := [], ExpiresAt := none, NotBefore := none,
        IssuedAt := none, ID := "" } }

end auth

namespace jwt

/-- A keyed hash: method name, key bytes, signed content (header and claims segments). -/
abbrev MAC := String → String → Header × auth.Claims → List Nat

/-- A token string: either not three dot-separated segments, or three segments, each
of which decodes or does not. -/
inductive TokenString where
  | malformed
  | compact (header : Option Header) (claims : Option auth.Claims) (signature : Option (List Nat))
  deriving DecidableEq, Repr

/-- The struct `jwt.Token`. -/
structure Token where
  Method : Option SigningMethod
  Header : Header
  Claims : auth.Claims
  Signature : List Nat
  Valid : Bool
  deriving DecidableEq, Repr

/-- The function `jwt.NewWithClaims`. -/
def NewWithClaims (method : SigningMethod) (claims : auth.Claims) : Token :=
  { Method := some method, Header := { typ := some "JWT", alg := some method.Alg },
    Claims := claims, Signature := [], Valid := false }

/-- The method `Sign` of a signing method, called with a key of type `[]byte`. -/
def SigningMethod.Sign (mac : MAC) (m : SigningMethod) (content : Header × auth.Claims)
    (key : String) : Option (List Nat) :=
  match m with
  | .HMAC alg => some (mac alg key content)
  | _ => none

/-- The method `Verify` of a signing method, called with a key of type `[]byte`: only the
HMAC family accepts such a key. -/
def SigningMethod.Verify (mac : MAC) (m : SigningMethod) (content : Header × auth.Claims)
    (sig : List Nat) (key : String) : Bool :=
  match m with
  | .HMAC alg => decide (mac alg key content = sig)
  | _ => false

/-- The method `Token.SignedString`, called with a key of type `[]byte`. -/
def Token.SignedString (mac : MAC) (t : Token) (key : String) : TokenString × error :=
  match t.Method with
  | none => (.malformed, some .tokenUnverifiable)
  | some m =>
    match m.Sign mac (t.Header, t.Claims) key with
    | some sig => (.compact (some t.Header) (some t.Claims) (some sig), none)
    | none => (.malformed, some .tokenUnverifiable)

/-- The default claims validator at time `now`: expiry and not-before, without leeway;
`iat` is not checked by default. -/
def Validate (now : Nat) (c : RegisteredClaims) : error :=
  match c.ExpiresAt with
  | some exp =>
    if now < exp then
      match c.NotBefore with
      | some nbf => if now < nbf then some .tokenNotValidYet else none
      | none => none
    else some .tokenExpired
  | none =>
    match c.NotBefore with
    | some nbf => if now < nbf then some .tokenNotValidYet else none
    | none => none

/-- The function `jwt.ParseWithClaims` with the default parser, at time `now`. -/
def ParseWithClaims (mac : MAC) (tokenString : TokenString)
    (keyFunc : Token → String × error) (now : Nat) : Token × error :=
  let blank : Token :=
    { Method := none, Header := { typ := none, alg := none }, Claims := auth.Claims.zero,
      Signature := [], Valid := false }
  match tokenString with
  | .malformed => (blank, some .tokenMalformed)
  | .compact none _ _ => (blank, some .tokenMalformed)
  | .compact (some header) none _ => ({ blank with Header := header }, some .tokenMalformed)
  | .compact (some header) (some claims) sig =>
    let t1 : Token := { blank with Header := header, Claims := claims }
    match header.alg with
    | none => (t1, some .tokenUnverifiable)
    | some alg =>
      match GetSigningMethod alg with
      | none => (t1, some .tokenUnverifiable)
      | some method =>
        let t2 : Token := { t1 with Method := some method }
        match sig with
        | none => (t2, some .tokenMalformed)
        | some sigBytes =>
          let t3 : Token := { t2 with Signature := sigBytes }
          match keyFunc t3 with
          | (_, some _) => (t3, some .tokenUnverifiable)
          | (key, none) =>
            if method.Verify mac (header, claims) sigBytes key then
              match Validate now claims.RegisteredClaims with
              | some e => (t3, some e)
              | none => ({ t3 with Valid := true }, none)
            else (t3, some .tokenSignatureInvalid)

end jwt

/-! ## Package `auth` (`internal/auth/token.go`) -/

namespace auth

/-- The function `GenerateJWT`; `t1`, `t2`, `t3` are the three readings of `time.Now()`, in
the order of the struct literal (`ExpiresAt`, `IssuedAt`, `NotBefore`). -/
def GenerateJWT (mac : jwt.MAC) (phone secret : String) (t1 t2 t3 : Nat) :
    jwt.TokenString × error :=
  let claims : Claims :=
    { Phone := phone,
      RegisteredClaims :=
        { ExpiresAt := some (jwt.NewNumericDate (t1 + 24 * jwt.Hour)),
          IssuedAt := some (jwt.NewNumericDate t2),
          NotBefore := some (jwt.NewNumericDate t3),
          Issuer := "otp-auth-service",
          Subject := phone,
          Audience := [],
          ID := "" } }
  let token := jwt.NewWithClaims (.HMAC "HS256") claims
  token.SignedString mac secret

/-- The function `ValidateJWT`, evaluated at time `now`. -/
def ValidateJWT (mac : jwt.MAC) (tokenString : jwt.TokenString) (secret : String) (now : Nat) :
    String × error :=
  match jwt.ParseWithClaims mac tokenString
      (fun token =>
        match token.Method with
        | some (.HMAC _) => (secret, none)
        | _ => ("", some .unexpectedSigningMethod))
      now with
  | (_, some err) => ("", some err)
  | (token, none) =>
    if token.Valid then (token.Claims.Phone, none) else ("", some .invalidToken)

end auth

/-! ## Package `db` (`internal/db/store.go`) -/

namespace types

/-- The struct `User`. -/
structure User where
  ID : Nat
  Phone : String
  CreatedAt : Nat
  deriving DecidableEq, Repr

end types

namespace db

/-- The table `users` behind `Store.DB`, the database clock, and the outcome schedule of
the coming statements (`true`: the statement fails). -/
structure Store where
  users : List types.User
  now : Nat
  faults : List Bool
  deriving DecidableEq, Repr

/-- Takes the next outcome off the schedule. -/
def Store.next (s : Store) : Bool × Store :=
  match s.faults with
  | [] => (false, s)
  | b :: rest => (b, { s with faults := rest })

/-- The method `Store.CreateUser`: one `INSERT` into `users`. -/
def Store.CreateUser (s : Store) (phone : String) : error × Store :=
  match s.next with
  | (true, s1) => (some .dbUnavailable, s1)
  | (false, s1) =>
    (none, { s1 with users := s1.users ++ [⟨s1.users.length + 1, phone, s1.now⟩] })

/-- The method `Store.UserExists`: one `SELECT EXISTS`. -/
def Store.UserExists (s : Store) (phone : String) : (Bool × error) × Store :=
  match s.next with
  | (true, s1) => ((false, some .dbUnavailable), s1)
  | (false, s1) => ((s1.users.any (fun u => u.Phone = phone), none), s1)

end db

/-! ## Package `api` (`internal/api/handler.go`) -/

namespace dto

/-- The struct `RequestOTPRequest`. -/
structure RequestOTPRequest where
  Phone : String
  deriving DecidableEq, Repr

/-- The struct `VerifyOTPRequest`. -/
structure VerifyOTPRequest where
  Phone : String
  Code : String
  deriving DecidableEq, Repr

/-- The JSON bodies that the two handlers write. -/
inductive Body where
  | ErrorResponse (Error : String)
  | RequestOTPResponse (Message : String)
  | VerifyOTPResponse (Message : String) (Token : jwt.TokenString)
  deriving DecidableEq, Repr

end dto

namespace api

/-- What a handler has written to its `http.ResponseWriter`. -/
structure Response where
  status : Nat
  body : dto.Body
  deriving DecidableEq, Repr

/-- The struct `Handler`; the logger is left out, it has no effect on responses or stores. -/
structure Handler where
  store : db.Store
  otp : otp.RedisOTP
  jwtSecret : String

/-- The function `JSONError`. -/
def JSONError (message : String) (code : Nat) : Response :=
  { status := code, body := .ErrorResponse message }

/-- The method `Handler.JSONErrorWithLog`. -/
def Handler.JSONErrorWithLog (_h : Handler) (publicMessage : String) (code : Nat) : Response :=
  JSONError publicMessage code

/-- The method `Handler.RequestOTP`; `req` is the decoded body (`none`: decoding failed),
`rnd` the outcome of the random draw. -/
def Handler.RequestOTP (h : Handler) (req : Option dto.RequestOTPRequest) (rnd : otp.RandInt) :
    GoResult Response × Handler :=
  match req with
  | none => (.ret (h.JSONErrorWithLog "Invalid request body" 400), h)
  | some req =>
    if req.Phone = "" then (.ret (JSONError "Phone number is required" 400), h)
    else
      match h.otp.RateLimit req.Phone with
      | ((_, some _), o1) =>
        let h1 := { h with otp := o1 }
        (.ret (h1.JSONErrorWithLog "Temporary service issue. Please try again." 503), h1)
      | ((allowed, none), o1) =>
        let h1 := { h with otp := o1 }
        if !allowed then (.ret (JSONError "Rate limit exceeded" 429), h1)
        else
          match o1.Generate req.Phone rnd with
          | (.panic msg, o2) => (.panic msg, { h1 with otp := o2 })
          | (.ret (_, some _), o2) =>
            let h2 := { h1 with otp := o2 }
            (.ret (h2.JSONErrorWithLog "Temporary service issue. Please try again." 503), h2)
          | (.ret (_, none), o2) =>
            (.ret { status := 200, body := .RequestOTPResponse "OTP sent" }, { h1 with otp := o2 })

/-- The method `Handler.VerifyOTP`; `req` is the decoded body (`none`: decoding failed),
`t1`, `t2`, `t3` are the clock readings that `GenerateJWT` takes. -/
def Handler.VerifyOTP (mac : jwt.MAC) (h : Handler) (req : Option dto.VerifyOTPRequest)
    (t1 t2 t3 : Nat) : Response × Handler :=
  match req with
  | none => (h.JSONErrorWithLog "Invalid request body" 400, h)
  | some req =>
    if req.Phone = "" ∨ req.Code = "" then (JSONError "Phone and code are required" 400, h)
    else
      match h.otp.Validate req.Phone req.Code with
      | ((_, some _), o1) =>
        let h1 := { h with otp := o1 }
        (h1.JSONErrorWithLog "Temporary service issue. Please try again." 503, h1)
      | ((valid, none), o1) =>
        let h1 := { h with otp := o1 }
        if !valid then (JSONError "Invalid OTP" 401, h1)
        else
          match h1.store.UserExists req.Phone with
          | ((_, some _), s1) =>
            let h2 := { h1 with store := s1 }
            (h2.JSONErrorWithLog "Database temporarily unavailable. Please try again." 500, h2)
          | ((exists_, none), s1) =>
            let h2 := { h1 with store := s1 }
            match (if !exists_ then h2.store.CreateUser req.Phone else (none, h2.store)) with
            | (some _, s2) =>
              let h3 := { h2 with store := s2 }
              (h3.JSONErrorWithLog "Failed to create user" 500, h3)
            | (none, s2) =>
              let h3 := { h2 with store := s2 }
              match auth.GenerateJWT mac req.Phone h3.jwtSecret t1 t2 t3 with
              | (_, some _) => (h3.JSONErrorWithLog "Failed to issue token" 500, h3)
              | (token, none) =>
                ({ status := 200, body := .VerifyOTPResponse "Login success" token }, h3)

end api

/-! ## Specification vocabulary -/

namespace redis

/-- Every command still on the schedule succeeds. -/
def Client.reliable (c : Client) : Prop := ∀ b ∈ c.faults, b = false

instance (c : Client) : Decidable c.reliable := by
  unfold Client.reliable; infer_instance

end redis

namespace otp

/-- Time passes between two calls. -/
def RedisOTP.advance (r : RedisOTP) (d : Nat) : RedisOTP := { r with client := r.client.advance d }

/-- Calls `RateLimit phone` once after each of the given delays, in order, and collects
the results. -/
def RedisOTP.rateLimitRun (r : RedisOTP) (phone : String) :
    List Nat → List (Bool × error) × RedisOTP
  | [] => ([], r)
  | d :: ds =>
    let res := (r.advance d).RateLimit phone
    let rest := res.2.rateLimitRun phone ds
    (res.1 :: rest.1, rest.2)

/-- A store holding the live record `123456` under `otp:+100`; every command succeeds. -/
def sampleOTP : RedisOTP :=
  { client :=
      { now := 5,
        data := Function.update (fun _ => none) "otp:+100" (some ⟨"123456", some 125⟩),
        faults := [] },
    otpTTL := 120, rateLimit := 3, rateLimitWindow := 60 }

/-- A rate limiter over an empty key space at time 0: limit 3 per window of 60. -/
def emptyOTP : RedisOTP :=
  { client := redis.Client.empty, otpTTL := 120, rateLimit := 3, rateLimitWindow := 60 }

/-- The states reached from `r0` by calls of `RateLimit`, for any phone, and by the passing
of time (which is what lets a window expire). -/
inductive RateReachable (r0 : RedisOTP) : RedisOTP → Prop where
  | init : RateReachable r0 r0
  | call (r : RedisOTP) (phone : String) : RateReachable r0 r →
      RateReachable r0 (r.RateLimit phone).2
  | wait (r : RedisOTP) (d : Nat) : RateReachable r0 r → RateReachable r0 (r.advance d)

/-- Every stored value is the numeral of a count between 1 and the largest `int64`. -/
def countsOnly (data : String → Option redis.Entry) : Prop :=
  ∀ key e, data key = some e → ∃ j : Nat, 1 ≤ j ∧ (j : Int) ≤ maxInt64 ∧ e.val = formatInt j

/-- The count read under `rate:phone`: 0 when there is no live counter. -/
def RedisOTP.counter (r : RedisOTP) (phone : String) : Int :=
  match r.client.lookup (rateKey phone) with
  | none => 0
  | some e => (parseInt64 e.val).getD 0

/-- Where a running call of `Validate` stands: before its `GET`, between a `GET` that
returned the supplied code and the `DEL`, or returned. -/
inductive ValidateState where
  | start
  | matched
  | done (res : Bool × error)
  deriving DecidableEq, Repr

/-- The next store command of a running `Validate phone code`, with the branching that
follows it in the source: the `GET` and the comparison, then the `DEL` and the return. -/
def RedisOTP.validateStep (r : RedisOTP) (phone code : String) :
    ValidateState → ValidateState × RedisOTP
  | .start =>
    match r.client.Get (otpKey phone) with
    | ((_, some err), c) =>
      if err = .redisNil then (.done (false, none), { r with client := c })
      else (.done (false, some err), { r with client := c })
    | ((val, none), c) =>
      if val = code then (.matched, { r with client := c })
      else (.done (false, none), { r with client := c })
  | .matched => (.done (true, none), { r with client := (r.client.Del (otpKey phone)).2 })
  | .done res => (.done res, r)

/-- Two calls of `Validate phone code` running concurrently against one store. The
schedule says, command by command, whose turn it is (`false`: the first call). -/
def validateTwo (phone code : String) :
    List Bool → RedisOTP → ValidateState → ValidateState →
      (ValidateState × ValidateState) × RedisOTP
  | [], r, s1, s2 => ((s1, s2), r)
  | false :: rest, r, s1, s2 =>
    validateTwo phone code rest (r.validateStep phone code s1).2
      (r.validateStep phone code s1).1 s2
  | true :: rest, r, s1, s2 =>
    validateTwo phone code rest (r.validateStep phone code s2).2 s1
      (r.validateStep phone code s2).1

end otp

namespace api

/-- A handler over `sampleOTP`, an empty `users` table and a database that answers. -/
def sampleHandler : Handler :=
  { store := { users := [], now := 7, faults := [] }, otp := otp.sampleOTP, jwtSecret := "k" }

/-- A handler whose rate counter for `+100` already stands at the limit 3. -/
def limitedHandler : Handler :=
  { sampleHandler with otp := (otp.sampleOTP.rateLimitRun "+100" [0, 1, 1]).2 }

/-- A keyed hash for examples: the method name, the key and the phone, as code points. -/
def sampleMAC : jwt.MAC := fun alg key content =>
  (alg ++ key ++ content.2.Phone).data.map Char.toNat

/-- A handler with an empty key space. -/
def emptyHandler : Handler :=
  { sampleHandler with otp := { otp.sampleOTP with client := redis.Client.empty } }

/-- A handler over `sampleOTP` whose database fails on the next statement. -/
def brokenDbHandler : Handler :=
  { sampleHandler with store := { users := [], now := 7, faults := [true] } }

/-- A handler over `sampleOTP` whose database answers the next statement and fails on
the one after it. -/
def brokenInsertHandler : Handler :=
  { sampleHandler with store := { users := [], now := 7, faults := [false, true] } }

/-- A handler over `sampleOTP` whose Redis answers the next command (the `GET`) and fails
on the one after it (the `DEL`), and whose database fails on the next statement. -/
def delFailsHandler : Handler :=
  { store := { users := [], now := 7, faults := [true] },
    otp := { otp.sampleOTP with client := { otp.sampleOTP.client with faults := [false, true] } },
    jwtSecret := "k" }

end api

/-! ## Lemmas on decimal numerals -/

theorem digitVal_digitChar {d : Nat} (h : d < 10) : digitVal (digitChar d) = d := by
  interval_cases d <;> rfl

theorem isDigit_digitChar {d : Nat} (h : d < 10) : isDigit (digitChar d) = true := by
  interval_cases d <;> rfl

theorem digitChar_ne_zero {d : Nat} (h0 : 0 < d) (h : d < 10) : digitChar d ≠ '0' := by
  interval_cases d <;> decide

theorem digitVal_lt {c : Char} (h : isDigit c = true) : digitVal c < 10 := by
  unfold isDigit at h; unfold digitVal
  simp only [Bool.and_eq_true, decide_eq_true_eq] at h
  omega

theorem digitChar_digitVal {c : Char} (h : isDigit c = true) : digitChar (digitVal c) = c := by
  unfold isDigit at h; unfold digitVal digitChar
  simp only [Bool.and_eq_true, decide_eq_true_eq] at h
  have : 48 + (c.toNat - 48) = c.toNat := by omega
  rw [this]
  exact Char.ofNat_toNat c

theorem natDigits_fuel : ∀ (f1 f2 n : Nat), n < f1 → n < f2 → natDigits f1 n = natDigits f2 n
  | 0, _, _, h, _ => absurd h (Nat.not_lt_zero _)
  | _ + 1, 0, _, _, h => absurd h (Nat.not_lt_zero _)
  | f1 + 1, f2 + 1, n, h1, h2 => by
    unfold natDigits
    by_cases hn : n < 10
    · simp [hn]
    · simp only [hn, if_false]
      rw [natDigits_fuel f1 f2 (n / 10) (by omega) (by omega)]

theorem decimal_eq (n : Nat) :
    decimal n = if n < 10 then [digitChar n] else decimal (n / 10) ++ [digitChar (n % 10)] := by
  unfold decimal
  conv => lhs; unfold natDigits
  by_cases hn : n < 10
  · simp [hn]
  · simp only [hn, if_false]
    rw [natDigits_fuel n (n / 10 + 1) (n / 10) (by omega) (by omega)]

theorem decimal_ne_nil (n : Nat) : decimal n ≠ [] := by
  rw [decimal_eq]; split <;> simp

theorem decimal_all_digits (n : Nat) : (decimal n).all isDigit = true := by
  induction n using Nat.strong_induction_on with
  | _ n ih =>
    rw [decimal_eq]
    by_cases hn : n < 10
    · simp [hn, isDigit_digitChar hn]
    · simp only [hn, if_false, List.all_append, List.all_cons, List.all_nil, Bool.and_true,
        Bool.and_eq_true]
      exact ⟨ih (n / 10) (by omega), isDigit_digitChar (by omega)⟩

theorem decimal_value (n : Nat) :
    (decimal n).foldl (fun acc c => acc * 10 + digitVal c) 0 = n := by
  induction n using Nat.strong_induction_on with
  | _ n ih =>
    rw [decimal_eq]
    by_cases hn : n < 10
    · simp [hn, digitVal_digitChar hn]
    · simp only [hn, if_false, List.foldl_append, List.foldl_cons, List.foldl_nil]
      rw [ih (n / 10) (by omega), digitVal_digitChar (by omega)]
      omega

theorem decimal_head (n : Nat) (h : 0 < n) : (decimal n).head? ≠ some '0' := by
  induction n using Nat.strong_induction_on with
  | _ n ih =>
    rw [decimal_eq]
    by_cases hn : n < 10
    · simp [hn, digitChar_ne_zero h hn]
    · simp only [hn, if_false]
      rw [List.head?_append_of_ne_nil _ (decimal_ne_nil _)]
      exact ih (n / 10) (by omega) (by omega)

theorem parseNat_decimal (n : Nat) : parseNat (decimal n) = some n := by
  unfold parseNat
  have hcanon : (decimal n).head? ≠ some '0' ∨ (decimal n).length = 1 := by
    by_cases hn : 0 < n
    · exact Or.inl (decimal_head n hn)
    · right
      have : n = 0 := by omega
      subst this; rfl
  rw [if_pos ⟨decimal_ne_nil n, decimal_all_digits n, hcanon⟩, decimal_value]

theorem decimal_head_not_minus (n : Nat) (cs : List Char) : decimal n ≠ '-' :: cs := by
  intro h
  have := decimal_all_digits n
  rw [h] at this
  simp [isDigit] at this

theorem parseInt64_formatInt (n : Nat) (h : n ≤ 9223372036854775807) :
    parseInt64 (formatInt (n : Int)) = some (n : Int) := by
  have hf : formatInt (n : Int) = ⟨decimal n⟩ := by
    unfold formatInt
    simp
  rw [hf]
  unfold parseInt64
  split
  · rename_i cs heq
    exact absurd heq (decimal_head_not_minus n cs)
  · simp only [parseNat_decimal]
    simp [Nat.not_lt.mpr h]

theorem int64_of_small (z : Int) (h0 : -9223372036854775808 ≤ z) (h1 : z ≤ 9223372036854775807) :
    int64 z = z := by
  unfold int64; omega

/-! ## Lemmas on the store -/

namespace redis

theorem next_fst {c : Client} (h : c.reliable) : c.next.1 = false := by
  unfold Client.next
  cases hf : c.faults with
  | nil => rfl
  | cons b rest => exact h b (by simp [hf])

theorem next_now (c : Client) : c.next.2.now = c.now := by
  unfold Client.next; cases c.faults <;> rfl

theorem next_data (c : Client) : c.next.2.data = c.data := by
  unfold Client.next; cases c.faults <;> rfl

theorem next_reliable {c : Client} (h : c.reliable) : c.next.2.reliable := by
  unfold Client.next
  cases hf : c.faults with
  | nil => simp [Client.reliable, hf]
  | cons b rest =>
    intro x hx
    exact h x (by simp [hf]; exact Or.inr hx)

theorem lookup_congr {c c' : Client} (hn : c'.now = c.now) (hd : c'.data = c.data)
    (key : String) : c'.lookup key = c.lookup key := by
  unfold Client.lookup; rw [hn, hd]

theorem lookup_next (c : Client) (key : String) : c.next.2.lookup key = c.lookup key :=
  lookup_congr (next_now c) (next_data c) key

theorem next_eq {c : Client} (h : c.reliable) : c.next = (false, c.next.2) := by
  have := next_fst h
  exact Prod.ext this rfl

theorem Get_some {c : Client} (h : c.reliable) {key : String} {e : Entry}
    (he : c.lookup key = some e) : c.Get key = ((e.val, none), c.next.2) := by
  unfold Client.Get
  rw [next_eq h]
  simp only [lookup_next, he]

theorem Get_none {c : Client} (h : c.reliable) {key : String}
    (he : c.lookup key = none) : c.Get key = (("", some .redisNil), c.next.2) := by
  unfold Client.Get
  rw [next_eq h]
  simp only [lookup_next, he]

theorem Del_eq {c : Client} (h : c.reliable) (key : String) :
    c.Del key = (none, { c.next.2 with data := Function.update c.data key none }) := by
  unfold Client.Del
  rw [next_eq h]
  simp only [next_data]

end redis

/-! ## Package `otp`: properties -/

namespace otp

open redis

theorem Validate_hit {r : RedisOTP} (hrel : r.client.reliable) {p : String} {e : Entry}
    (he : r.client.lookup (otpKey p) = some e) :
    r.Validate p e.val = ((true, none),
      { r with client := { r.client.next.2.next.2 with
          data := Function.update r.client.data (otpKey p) none } }) := by
  unfold RedisOTP.Validate
  simp only [Get_some hrel he, if_true, Del_eq (next_reliable hrel), next_data]

theorem Validate_miss {r : RedisOTP} (hrel : r.client.reliable) {p d : String} {e : Entry}
    (he : r.client.lookup (otpKey p) = some e) (hd : d ≠ e.val) :
    r.Validate p d = ((false, none), { r with client := r.client.next.2 }) := by
  unfold RedisOTP.Validate
  simp only [Get_some hrel he, if_neg (Ne.symm hd)]

theorem Validate_absent {r : RedisOTP} (hrel : r.client.reliable) {p d : String}
    (he : r.client.lookup (otpKey p) = none) :
    r.Validate p d = ((false, none), { r with client := r.client.next.2 }) := by
  unfold RedisOTP.Validate
  simp only [Get_none hrel he, if_true]

/-- C1. Single use: when the store holds a live record with code `c` under `otp:p` and every
store command succeeds, `Validate p c` returns `(true, nil)` and removes the record, and a
following `Validate p c` (at once, or after any delay `dt`) returns `(false, nil)`. -/
theorem C1_validate_single_use (r : RedisOTP) (p c : String) (e : Entry)
    (hrel : r.client.reliable) (hrec : r.client.lookup (otpKey p) = some e) (hc : e.val = c) :
    (r.Validate p c).1 = (true, none) ∧
    (r.Validate p c).2.client.data (otpKey p) = none ∧
    ∀ dt : Nat, (((r.Validate p c).2.advance dt).Validate p c).1 = (false, none) := by
  subst hc
  rw [Validate_hit hrel hrec]
  refine ⟨rfl, by simp, ?_⟩
  intro dt
  rw [Validate_absent]
  · exact next_reliable (next_reliable hrel)
  · simp [RedisOTP.advance, Client.advance, Client.lookup]

theorem C1_validate_single_use_witness :
    (sampleOTP.Validate "+100" "123456").1 = (true, none) ∧
    (sampleOTP.Validate "+100" "123456").2.client.data (otpKey "+100") = none ∧
    (((sampleOTP.Validate "+100" "123456").2.advance 0).Validate "+100" "123456").1
      = (false, none) :=
  have h := C1_validate_single_use sampleOTP "+100" "123456" ⟨"123456", some 125⟩
    (by decide) (by decide) rfl
  ⟨h.1, h.2.1, h.2.2 0⟩

theorem Validate_fst_false_of_ne (r : RedisOTP) (p d : String)
    (h : ∀ e, r.client.lookup (otpKey p) = some e → e.val ≠ d) :
    (r.Validate p d).1.1 = false := by
  unfold RedisOTP.Validate Client.Get
  rcases hn : r.client.next with ⟨b, c1⟩
  have hl : c1.lookup (otpKey p) = r.client.lookup (otpKey p) := by
    have := lookup_next r.client (otpKey p)
    rwa [hn] at this
  cases b with
  | true => simp
  | false =>
    simp only [hl]
    cases he : r.client.lookup (otpKey p) with
    | none => simp
    | some e => simp [h e he]

theorem Generate_ret {r : RedisOTP} {p : String} {rnd : RandInt} {c : String}
    (hgen : (r.Generate p rnd).1 = .ret (c, none)) :
    r.client.next.1 = false ∧ generateRandomOTP rnd = .ret c ∧
    (r.Generate p rnd).2 = { r with client := (r.client.Set (otpKey p) c r.otpTTL).2 } := by
  unfold RedisOTP.Generate at hgen ⊢
  cases hg : generateRandomOTP rnd with
  | panic msg => simp [hg] at hgen
  | ret code =>
    simp only [hg] at hgen ⊢
    unfold Client.Set at hgen ⊢
    rcases hn : r.client.next with ⟨b, c1⟩
    cases b with
    | true => simp [hn] at hgen
    | false =>
      simp only [hn] at hgen ⊢
      simp only [GoResult.ret.injEq, Prod.mk.injEq, and_true] at hgen
      subst hgen
      simp

/-- C2. Round trip with overwrite: whatever the store held before, when `Generate p` returns
`(c, nil)` with a positive `otpTTL`, the store holds exactly `c` under `otp:p`, expiring
`otpTTL` after the call; as long as less than `otpTTL` has passed and the store read
succeeds, `Validate p c` returns `(true, nil)`; and no code other than `c` validates for `p`. -/
theorem C2_generate_round_trip (r : RedisOTP) (p : String) (rnd : RandInt) (c : String)
    (hTTL : 0 < r.otpTTL) (hgen : (r.Generate p rnd).1 = .ret (c, none)) :
    (r.Generate p rnd).2.client.data (otpKey p)
      = some ⟨c, some (r.client.now + r.otpTTL.toNat)⟩ ∧
    (∀ dt : Nat, (dt : Int) < r.otpTTL → (r.Generate p rnd).2.client.reliable →
      (((r.Generate p rnd).2.advance dt).Validate p c).1 = (true, none)) ∧
    (∀ c' : String, c' ≠ c → ∀ dt : Nat,
      (((r.Generate p rnd).2.advance dt).Validate p c').1.1 = false) := by
  obtain ⟨hn, -, hst⟩ := Generate_ret hgen
  have hdata : (r.Generate p rnd).2.client.data (otpKey p)
      = some ⟨c, some (r.client.now + r.otpTTL.toNat)⟩ := by
    rw [hst]
    unfold Client.Set
    rw [show r.client.next = (false, r.client.next.2) from Prod.ext hn rfl]
    simp [hTTL, next_now]
  have hlook : ∀ dt : Nat, ∀ e, ((r.Generate p rnd).2.advance dt).client.lookup (otpKey p) = some e →
      e.val = c := by
    intro dt e he
    simp only [RedisOTP.advance, Client.advance, Client.lookup, hdata] at he
    split at he
    · simp only [Option.some.injEq] at he; rw [← he]
    · exact absurd he (by simp)
  refine ⟨hdata, ?_, ?_⟩
  · intro dt hdt hrel
    have hnow : (r.Generate p rnd).2.client.now = r.client.now := by
      rw [hst]; unfold Client.Set
      rw [show r.client.next = (false, r.client.next.2) from Prod.ext hn rfl]
      simp [next_now]
    have he : ((r.Generate p rnd).2.advance dt).client.lookup (otpKey p)
        = some ⟨c, some (r.client.now + r.otpTTL.toNat)⟩ := by
      simp only [RedisOTP.advance, Client.advance, Client.lookup, hdata, Entry.alive, hnow]
      have : r.client.now + dt < r.client.now + r.otpTTL.toNat := by omega
      simp [this]
    have hrel' : ((r.Generate p rnd).2.advance dt).client.reliable := hrel
    have := Validate_hit hrel' he
    simp only at this
    rw [this]
  · intro c' hc' dt
    apply Validate_fst_false_of_ne
    intro e he hval
    exact hc' (hval.symm.trans (hlook dt e he))

theorem C2_generate_round_trip_witness :
    (sampleOTP.Generate "+100" (.ok 5)).2.client.data (otpKey "+100")
      = some ⟨"100005", some 125⟩ ∧
    (((sampleOTP.Generate "+100" (.ok 5)).2.advance 119).Validate "+100" "100005").1
      = (true, none) ∧
    (((sampleOTP.Generate "+100" (.ok 5)).2.advance 0).Validate "+100" "123456").1.1 = false :=
  have h := C2_generate_round_trip sampleOTP "+100" (.ok 5) "100005" (by decide) (by decide)
  ⟨h.1, h.2.1 119 (by decide) (by decide), h.2.2 "123456" (by decide) 0⟩

/-- C3. Non-destructive mismatch: when the store holds a live record with code `e.val` under
`otp:p` and the store commands succeed, `Validate p d` with `d ≠ e.val` returns
`(false, nil)` and leaves the whole key space unchanged, and a following `Validate p e.val`
while the record is alive returns `(true, nil)`. -/
theorem C3_validate_mismatch_keeps_record (r : RedisOTP) (p d : String) (e : Entry)
    (hrel : r.client.reliable) (hrec : r.client.lookup (otpKey p) = some e) (hd : d ≠ e.val) :
    (r.Validate p d).1 = (false, none) ∧
    (r.Validate p d).2.client.data = r.client.data ∧
    ∀ dt : Nat, e.alive (r.client.now + dt) = true →
      (((r.Validate p d).2.advance dt).Validate p e.val).1 = (true, none) := by
  rw [Validate_miss hrel hrec hd]
  refine ⟨rfl, next_data _, ?_⟩
  intro dt halive
  have he : (({ r with client := r.client.next.2 } : RedisOTP).advance dt).client.lookup (otpKey p)
      = some e := by
    have h0 : r.client.data (otpKey p) = some e := by
      unfold Client.lookup at hrec
      split at hrec
      · split at hrec
        · rename_i heq _; rw [heq, hrec]
        · exact absurd hrec (by simp)
      · exact absurd hrec (by simp)
    simp only [RedisOTP.advance, Client.advance, Client.lookup, next_data, next_now, h0, halive,
      if_true]
  have hrel' : (({ r with client := r.client.next.2 } : RedisOTP).advance dt).client.reliable :=
    next_reliable hrel
  rw [Validate_hit hrel' he]

theorem C3_validate_mismatch_keeps_record_witness :
    (sampleOTP.Validate "+100" "000000").1 = (false, none) ∧
    (sampleOTP.Validate "+100" "000000").2.client.data = sampleOTP.client.data ∧
    (((sampleOTP.Validate "+100" "000000").2.advance 119).Validate "+100" "123456").1
      = (true, none) :=
  have h := C3_validate_mismatch_keeps_record sampleOTP "+100" "000000" ⟨"123456", some 125⟩
    (by decide) (by decide) (by decide)
  ⟨h.1, h.2.1, h.2.2 119 (by decide)⟩

theorem lookup_of_data {c : Client} {key : String} {e : Entry}
    (hd : c.data key = some e) (ha : e.alive c.now = true) : c.lookup key = some e := by
  unfold Client.lookup; simp [hd, ha]

theorem lookup_none_of_dead {c : Client} {key : String}
    (h : ∀ e, c.data key = some e → e.alive c.now = false) : c.lookup key = none := by
  unfold Client.lookup
  cases hd : c.data key with
  | none => rfl
  | some e => simp [h e hd]

/-- First call of a window: the counter is absent. -/
theorem RateLimit_fresh {r : RedisOTP} (hrel : r.client.reliable) {p : String}
    (h0 : r.client.lookup (rateKey p) = none) :
    (r.RateLimit p).1 = (decide ((1 : Int) ≤ r.rateLimit), none) ∧
    (r.RateLimit p).2.rateLimit = r.rateLimit ∧
    (r.RateLimit p).2.rateLimitWindow = r.rateLimitWindow ∧
    (r.RateLimit p).2.client.now = r.client.now ∧
    (r.RateLimit p).2.client.reliable ∧
    (r.RateLimit p).2.client.data (rateKey p) =
      (if 0 < r.rateLimitWindow then
        some ⟨formatInt 1, some (r.client.now + r.rateLimitWindow.toNat)⟩ else none) := by
  have hrel1 := next_reliable hrel
  have hI : r.client.Incr (rateKey p) = ((1, none),
      { r.client.next.2 with
        data := Function.update r.client.data (rateKey p) (some ⟨formatInt 1, none⟩) }) := by
    unfold Client.Incr
    rw [next_eq hrel]
    simp only [lookup_next, h0, next_data]
  unfold RedisOTP.RateLimit
  simp only [hI, if_true]
  set c1 : Client := { r.client.next.2 with
        data := Function.update r.client.data (rateKey p) (some ⟨formatInt 1, none⟩) } with hc1
  have hrelc1 : c1.reliable := hrel1
  have hl : c1.lookup (rateKey p) = some ⟨formatInt 1, none⟩ :=
    lookup_of_data (by simp [hc1]) rfl
  have hnow1 : c1.now = r.client.now := next_now _
  have hint : int64 1 = 1 := int64_of_small 1 (by decide) (by decide)
  unfold Client.Expire
  rw [next_eq hrelc1]
  simp only [lookup_next, hl, next_data, next_now, hint]
  by_cases hw : 0 < r.rateLimitWindow
  · simp only [hw, if_true]
    exact ⟨trivial, trivial, trivial, trivial, next_reliable hrelc1, by simp⟩
  · simp only [hw, if_false]
    exact ⟨trivial, trivial, trivial, trivial, next_reliable hrelc1, by simp⟩

/-- Later call of a window: the counter is alive with value `j`. -/
theorem RateLimit_again {r : RedisOTP} (hrel : r.client.reliable) {p : String} {j : Nat}
    {exp : Option Nat} (hj : (j : Int) < maxInt64)
    (hd : r.client.data (rateKey p) = some ⟨formatInt j, exp⟩)
    (ha : (⟨formatInt j, exp⟩ : Entry).alive r.client.now = true) (hj1 : 1 ≤ j) :
    (r.RateLimit p).1 = (decide (((j + 1 : Nat) : Int) ≤ r.rateLimit), none) ∧
    (r.RateLimit p).2.rateLimit = r.rateLimit ∧
    (r.RateLimit p).2.rateLimitWindow = r.rateLimitWindow ∧
    (r.RateLimit p).2.client.now = r.client.now ∧
    (r.RateLimit p).2.client.reliable ∧
    (r.RateLimit p).2.client.data (rateKey p) = some ⟨formatInt ((j + 1 : Nat) : Int), exp⟩ := by
  unfold maxInt64 at hj
  have hI : r.client.Incr (rateKey p) = ((((j + 1 : Nat) : Int), none),
      { r.client.next.2 with
        data := Function.update r.client.data (rateKey p)
          (some ⟨formatInt ((j + 1 : Nat) : Int), exp⟩) }) := by
    unfold Client.Incr
    rw [next_eq hrel]
    simp only [lookup_next, lookup_of_data hd ha, next_data,
      parseInt64_formatInt j (by omega)]
    have : ¬ ((j : Int) = maxInt64) := by unfold maxInt64; omega
    simp only [this, if_false]
    push_cast
    rfl
  unfold RedisOTP.RateLimit
  simp only [hI]
  have hne : ¬ (((j + 1 : Nat) : Int) = 1) := by omega
  simp only [hne, if_false]
  refine ⟨by rw [int64_of_small _ (by omega) (by omega)], trivial, trivial, next_now _,
    next_reliable hrel, by simp⟩

theorem lookup_none_advance {c : Client} {key : String} (h : c.lookup key = none) (d : Nat) :
    (c.advance d).lookup key = none := by
  apply lookup_none_of_dead
  intro e he
  have hd : c.data key = some e := he
  unfold Client.lookup at h
  rw [hd] at h
  unfold Entry.alive at h ⊢
  cases hx : e.expireAt with
  | none => simp [hx] at h
  | some t =>
    simp only [hx, decide_eq_true_eq, ite_eq_right_iff, imp_false, reduceCtorEq] at h
    simp only [Client.advance, decide_eq_false_iff_not]
    omega

/-- Calls inside an open window: the counter is alive with value `j` and stays alive. -/
theorem rateLimitRun_open (p : String) (exp : Nat) :
    ∀ (ds : List Nat) (r : RedisOTP) (j : Nat), r.client.reliable → 1 ≤ j →
      r.client.data (rateKey p) = some ⟨formatInt j, some exp⟩ →
      r.client.now + ds.sum < exp → ((j + ds.length : Nat) : Int) ≤ maxInt64 →
      (∀ i, i < ds.length → (r.rateLimitRun p ds).1[i]? =
        some (decide (((j + i + 1 : Nat) : Int) ≤ r.rateLimit), none)) ∧
      (r.rateLimitRun p ds).2.rateLimit = r.rateLimit ∧
      (r.rateLimitRun p ds).2.rateLimitWindow = r.rateLimitWindow ∧
      (r.rateLimitRun p ds).2.client.now = r.client.now + ds.sum ∧
      (r.rateLimitRun p ds).2.client.reliable ∧
      (r.rateLimitRun p ds).2.client.data (rateKey p) =
        some ⟨formatInt ((j + ds.length : Nat) : Int), some exp⟩
  | [], r, j, hrel, _, hd, _, _ => by
    refine ⟨fun i hi => absurd hi (Nat.not_lt_zero _), rfl, rfl, rfl, hrel, ?_⟩
    simpa [RedisOTP.rateLimitRun] using hd
  | d :: ds, r, j, hrel, hj, hd, ht, hb => by
    simp only [List.sum_cons, List.length_cons] at ht hb
    have hrel' : (r.advance d).client.reliable := hrel
    have hd' : (r.advance d).client.data (rateKey p) = some ⟨formatInt j, some exp⟩ := hd
    have ha : (⟨formatInt j, some exp⟩ : Entry).alive (r.advance d).client.now = true := by
      simp only [Entry.alive, RedisOTP.advance, Client.advance, decide_eq_true_eq]
      omega
    have hjm : (j : Int) < maxInt64 := by
      unfold maxInt64 at hb ⊢; push_cast at hb; omega
    obtain ⟨h1, h2, h3, h4, h5, h6⟩ := RateLimit_again hrel' hjm hd' ha hj
    have hnow : ((r.advance d).RateLimit p).2.client.now = r.client.now + d := h4
    obtain ⟨g1, g2, g3, g4, g5, g6⟩ :=
      rateLimitRun_open p exp ds ((r.advance d).RateLimit p).2 (j + 1) h5 (by omega) h6
        (by rw [hnow]; omega) (by push_cast at hb ⊢; omega)
    have hlim : (r.advance d).rateLimit = r.rateLimit := rfl
    have hwin : (r.advance d).rateLimitWindow = r.rateLimitWindow := rfl
    simp only [RedisOTP.rateLimitRun]
    refine ⟨?_, by rw [g2, h2, hlim], by rw [g3, h3, hwin], by rw [g4, hnow]; simp; omega, g5, ?_⟩
    · intro i hi
      cases i with
      | zero => simp [h1, hlim]
      | succ i =>
        simp only [List.length_cons] at hi
        simp only [List.getElem?_cons_succ]
        rw [g1 i (by omega), h2, hlim]
        have : j + 1 + i + 1 = j + (i + 1) + 1 := by omega
        rw [this]
    · rw [g6]
      have : j + 1 + ds.length = j + (ds.length + 1) := by omega
      simp [this]

/-- C4. Fixed-window threshold: starting without a live `rate:p` counter and with every store
command succeeding, the `k`-th call of `RateLimit p` inside one window (all later calls
less than `rateLimitWindow` after the first) returns `(k ≤ rateLimit, nil)`; so the
`rateLimit`-th call is allowed and the next one rejected; and the first call once the
window has run out returns `(true, nil)` when `rateLimit ≥ 1`. -/
theorem C4_rate_limit_threshold (r : RedisOTP) (p : String) (d0 : Nat) (ds : List Nat)
    (hrel : r.client.reliable) (h0 : r.client.lookup (rateKey p) = none)
    (hwin : (ds.sum : Int) < r.rateLimitWindow) (hlen : (ds.length : Int) < maxInt64) :
    (∀ k : Nat, 1 ≤ k → k ≤ ds.length + 1 →
      (r.rateLimitRun p (d0 :: ds)).1[k - 1]? = some (decide ((k : Int) ≤ r.rateLimit), none)) ∧
    (∀ k : Nat, 1 ≤ k → k ≤ ds.length + 1 → (k : Int) = r.rateLimit →
      (r.rateLimitRun p (d0 :: ds)).1[k - 1]? = some (true, none)) ∧
    (∀ k : Nat, 1 ≤ k → k ≤ ds.length + 1 → (k : Int) = r.rateLimit + 1 →
      (r.rateLimitRun p (d0 :: ds)).1[k - 1]? = some (false, none)) ∧
    (∀ d' : Nat, r.rateLimitWindow ≤ ((ds.sum + d' : Nat) : Int) → 1 ≤ r.rateLimit →
      (((r.rateLimitRun p (d0 :: ds)).2.advance d').RateLimit p).1 = (true, none)) := by
  have hrel0 : (r.advance d0).client.reliable := hrel
  have hl0 : (r.advance d0).client.lookup (rateKey p) = none := lookup_none_advance h0 d0
  obtain ⟨h1, h2, h3, h4, h5, h6⟩ := RateLimit_fresh hrel0 hl0
  have hlim : (r.advance d0).rateLimit = r.rateLimit := rfl
  have hwin0 : (r.advance d0).rateLimitWindow = r.rateLimitWindow := rfl
  have hnow0 : (r.advance d0).client.now = r.client.now + d0 := rfl
  have hwpos : 0 < r.rateLimitWindow := by omega
  rw [hwin0, hnow0, if_pos hwpos] at h6
  rw [hnow0] at h4
  obtain ⟨g1, g2, g3, g4, g5, g6⟩ :=
    rateLimitRun_open p (r.client.now + d0 + r.rateLimitWindow.toNat) ds
      ((r.advance d0).RateLimit p).2 1 h5 (le_refl 1) h6 (by rw [h4]; omega)
      (by unfold maxInt64 at hlen ⊢; push_cast; omega)
  have hrun : r.rateLimitRun p (d0 :: ds) =
      (((r.advance d0).RateLimit p).1 :: (((r.advance d0).RateLimit p).2.rateLimitRun p ds).1,
        (((r.advance d0).RateLimit p).2.rateLimitRun p ds).2) := rfl
  have hmain : ∀ k : Nat, 1 ≤ k → k ≤ ds.length + 1 →
      (r.rateLimitRun p (d0 :: ds)).1[k - 1]? = some (decide ((k : Int) ≤ r.rateLimit), none) := by
    intro k hk1 hk2
    rw [hrun]
    obtain ⟨i, rfl⟩ : ∃ i, k = i + 1 := ⟨k - 1, by omega⟩
    cases i with
    | zero => simp [h1, hlim]
    | succ i =>
      simp only [Nat.add_sub_cancel, List.getElem?_cons_succ]
      rw [g1 i (by omega), h2, hlim]
      have : 1 + i + 1 = i + 1 + 1 := by omega
      rw [this]
  refine ⟨hmain, ?_, ?_, ?_⟩
  · intro k hk1 hk2 hk
    rw [hmain k hk1 hk2]; simp [hk]
  · intro k hk1 hk2 hk
    rw [hmain k hk1 hk2]; simp [hk]
  · intro d' hd' hlim1
    rw [hrun]
    simp only
    set rf := (((r.advance d0).RateLimit p).2.rateLimitRun p ds).2 with hrf
    have hrelf : (rf.advance d').client.reliable := g5
    have hlf : (rf.advance d').client.lookup (rateKey p) = none := by
      apply lookup_none_of_dead
      intro e he
      have he' : rf.client.data (rateKey p) = some e := he
      rw [g6, Option.some.injEq] at he'
      subst he'
      have hn : (rf.advance d').client.now = r.client.now + d0 + ds.sum + d' := by
        show rf.client.now + d' = _
        rw [g4, h4]
      simp only [Entry.alive, hn, decide_eq_false_iff_not]
      omega
    obtain ⟨f1, -⟩ := RateLimit_fresh hrelf hlf
    rw [f1]
    have : (rf.advance d').rateLimit = r.rateLimit := by
      show rf.rateLimit = _
      rw [g2, h2, hlim]
    simp [this, hlim1]

theorem C4_rate_limit_threshold_witness :
    (sampleOTP.rateLimitRun "+100" [0, 1, 1, 1]).1[2]? = some (true, none) ∧
    (sampleOTP.rateLimitRun "+100" [0, 1, 1, 1]).1[3]? = some (false, none) ∧
    (((sampleOTP.rateLimitRun "+100" [0, 1, 1, 1]).2.advance 57).RateLimit "+100").1
      = (true, none) :=
  have h := C4_rate_limit_threshold sampleOTP "+100" 0 [1, 1, 1] (by decide) (by decide)
    (by decide) (by decide)
  ⟨h.2.1 3 (by decide) (by decide) (by decide), h.2.2.1 4 (by decide) (by decide) (by decide),
    h.2.2.2 57 (by decide) (by decide)⟩

theorem otpKey_ne_rateKey (p q : String) : otpKey p ≠ rateKey q := by
  intro h
  have := congrArg String.data h
  simp [otpKey, rateKey, String.data_append] at this

theorem Incr_frame (c : Client) (key key' : String) (h : key' ≠ key) :
    (c.Incr key).2.data key' = c.data key' ∧ (c.Incr key).2.now = c.now := by
  unfold Client.Incr
  rcases hn : c.next with ⟨b, c1⟩
  have hd : c1.data = c.data := by have := next_data c; rwa [hn] at this
  have ht : c1.now = c.now := by have := next_now c; rwa [hn] at this
  cases b with
  | true => simp [hd, ht]
  | false =>
    simp only
    split
    · simp [hd, ht, Function.update_noteq h]
    · split
      · simp [hd, ht]
      · split <;> simp [hd, ht, Function.update_noteq h]

theorem Expire_frame (c : Client) (key key' : String) (w : Int) (h : key' ≠ key) :
    (c.Expire key w).2.data key' = c.data key' ∧ (c.Expire key w).2.now = c.now := by
  unfold Client.Expire
  rcases hn : c.next with ⟨b, c1⟩
  have hd : c1.data = c.data := by have := next_data c; rwa [hn] at this
  have ht : c1.now = c.now := by have := next_now c; rwa [hn] at this
  cases b with
  | true => simp [hd, ht]
  | false =>
    simp only
    split
    · simp [hd, ht]
    · split <;> simp [hd, ht, Function.update_noteq h]

/-- The rate limiter touches no key other than `rate:p`, and not the clock. -/
theorem RateLimit_frame (r : RedisOTP) (p : String) {key : String} (h : key ≠ rateKey p) :
    (r.RateLimit p).2.client.data key = r.client.data key ∧
    (r.RateLimit p).2.client.now = r.client.now := by
  have hI := Incr_frame r.client (rateKey p) key h
  unfold RedisOTP.RateLimit
  dsimp only
  rcases hi : r.client.Incr (rateKey p) with ⟨⟨cnt, err⟩, c⟩
  rw [hi] at hI
  cases err with
  | some e => exact hI
  | none =>
    dsimp only
    by_cases hc : cnt = 1
    · have hE := Expire_frame c (rateKey p) key r.rateLimitWindow h
      simp only [hc, if_true]
      exact ⟨hE.1.trans hI.1, hE.2.trans hI.2⟩
    · simp only [hc, if_false]
      exact hI

end otp

namespace api

open redis otp

/-- C5. A rate-limited issuance leaves the code slot alone: for a non-empty phone `p`, when
`RateLimit p` returns `(false, nil)`, `RequestOTP` answers 429 `Rate limit exceeded`; the
state it leaves is the one `RateLimit` left (whatever the random draw: `Generate` has not
run), the record under `otp:p` and the clock are what they were, and a code that was
pending for `p` still validates. -/
theorem C5_rate_limited_keeps_code (h : Handler) (p : String) (rnd : otp.RandInt)
    (hp : p ≠ "") (hrl : (h.otp.RateLimit p).1 = (false, none)) :
    (h.RequestOTP (some ⟨p⟩) rnd).1
      = .ret { status := 429, body := .ErrorResponse "Rate limit exceeded" } ∧
    (h.RequestOTP (some ⟨p⟩) rnd).2.otp = (h.otp.RateLimit p).2 ∧
    (h.RequestOTP (some ⟨p⟩) rnd).2.store = h.store ∧
    (h.RequestOTP (some ⟨p⟩) rnd).2.otp.client.data (otpKey p)
      = h.otp.client.data (otpKey p) ∧
    (h.RequestOTP (some ⟨p⟩) rnd).2.otp.client.lookup (otpKey p)
      = h.otp.client.lookup (otpKey p) ∧
    (∀ e : Entry, h.otp.client.lookup (otpKey p) = some e →
      (h.RequestOTP (some ⟨p⟩) rnd).2.otp.client.reliable →
      ((h.RequestOTP (some ⟨p⟩) rnd).2.otp.Validate p e.val).1 = (true, none)) := by
  have hfr := RateLimit_frame h.otp p (otpKey_ne_rateKey p p)
  have hreq : h.RequestOTP (some ⟨p⟩) rnd
      = (.ret { status := 429, body := .ErrorResponse "Rate limit exceeded" },
          { h with otp := (h.otp.RateLimit p).2 }) := by
    unfold Handler.RequestOTP
    simp only [hp, if_false]
    rcases hr : h.otp.RateLimit p with ⟨⟨allowed, err⟩, o1⟩
    rw [hr] at hrl
    simp only [Prod.mk.injEq] at hrl
    obtain ⟨rfl, rfl⟩ := hrl
    simp [JSONError]
  rw [hreq]
  have hl : (h.otp.RateLimit p).2.client.lookup (otpKey p)
      = h.otp.client.lookup (otpKey p) := by
    unfold Client.lookup; rw [hfr.1, hfr.2]
  refine ⟨rfl, rfl, rfl, hfr.1, hl, ?_⟩
  intro e he hrel
  have he' : (h.otp.RateLimit p).2.client.lookup (otpKey p) = some e := hl.trans he
  rw [Validate_hit hrel he']

theorem C5_rate_limited_keeps_code_witness :
    (limitedHandler.RequestOTP (some ⟨"+100"⟩) (.ok 5)).1
      = .ret { status := 429, body := .ErrorResponse "Rate limit exceeded" } ∧
    (limitedHandler.RequestOTP (some ⟨"+100"⟩) (.ok 5)).2.otp.client.data (otpKey "+100")
      = some ⟨"123456", some 125⟩ ∧
    ((limitedHandler.RequestOTP (some ⟨"+100"⟩) (.ok 5)).2.otp.Validate "+100" "123456").1
      = (true, none) :=
  have h := C5_rate_limited_keeps_code limitedHandler "+100" (.ok 5) (by decide) (by decide)
  ⟨h.1, h.2.2.2.1, h.2.2.2.2.2 ⟨"123456", some 125⟩ (by decide) (by decide)⟩

/-- What `VerifyOTP` does when `Validate` reports `(false, nil)`. -/
theorem VerifyOTP_invalid (mac : jwt.MAC) (h : Handler) (p d : String) (t1 t2 t3 : Nat)
    (hp : p ≠ "") (hd : d ≠ "") (hv : (h.otp.Validate p d).1 = (false, none)) :
    h.VerifyOTP mac (some ⟨p, d⟩) t1 t2 t3
      = ({ status := 401, body := .ErrorResponse "Invalid OTP" },
          { h with otp := (h.otp.Validate p d).2 }) := by
  unfold Handler.VerifyOTP
  simp only [hp, hd, or_self, if_false]
  rcases hr : h.otp.Validate p d with ⟨⟨valid, err⟩, o1⟩
  rw [hr] at hv
  simp only [Prod.mk.injEq] at hv
  obtain ⟨rfl, rfl⟩ := hv
  simp [JSONError]

/-- C8. A wrong code and a missing code cannot be told apart: for non-empty `p` and `d`, let
`h1` hold no live record for `p` and `h2` hold a live record whose code differs from `d`,
with the store read succeeding in both. Then `Validate p d` returns `(false, nil)` in
both, `VerifyOTP` answers 401 `Invalid OTP` in both, and no user is created and no token
issued in either. -/
theorem C8_wrong_and_missing_code_alike (mac : jwt.MAC) (h1 h2 : Handler) (p d : String)
    (t1 t2 t3 u1 u2 u3 : Nat) (hp : p ≠ "") (hd : d ≠ "")
    (hrel1 : h1.otp.client.reliable) (hrel2 : h2.otp.client.reliable)
    (hnone : h1.otp.client.lookup (otpKey p) = none)
    (hwrong : ∃ e : Entry, h2.otp.client.lookup (otpKey p) = some e ∧ e.val ≠ d) :
    (h1.otp.Validate p d).1 = (false, none) ∧
    (h2.otp.Validate p d).1 = (false, none) ∧
    (h1.VerifyOTP mac (some ⟨p, d⟩) t1 t2 t3).1
      = { status := 401, body := .ErrorResponse "Invalid OTP" } ∧
    (h2.VerifyOTP mac (some ⟨p, d⟩) u1 u2 u3).1
      = { status := 401, body := .ErrorResponse "Invalid OTP" } ∧
    (h1.VerifyOTP mac (some ⟨p, d⟩) t1 t2 t3).2.store = h1.store ∧
    (h2.VerifyOTP mac (some ⟨p, d⟩) u1 u2 u3).2.store = h2.store := by
  obtain ⟨e, he, hne⟩ := hwrong
  have hv1 : (h1.otp.Validate p d).1 = (false, none) := by rw [Validate_absent hrel1 hnone]
  have hv2 : (h2.otp.Validate p d).1 = (false, none) := by
    rw [Validate_miss hrel2 he (Ne.symm hne)]
  rw [VerifyOTP_invalid mac h1 p d t1 t2 t3 hp hd hv1,
    VerifyOTP_invalid mac h2 p d u1 u2 u3 hp hd hv2]
  exact ⟨hv1, hv2, rfl, rfl, rfl, rfl⟩

theorem C8_wrong_and_missing_code_alike_witness :
    (emptyHandler.otp.Validate "+100" "000000").1 = (false, none) ∧
    (sampleHandler.otp.Validate "+100" "000000").1 = (false, none) ∧
    (emptyHandler.VerifyOTP sampleMAC (some ⟨"+100", "000000"⟩) 1 2 3).1
      = { status := 401, body := .ErrorResponse "Invalid OTP" } ∧
    (sampleHandler.VerifyOTP sampleMAC (some ⟨"+100", "000000"⟩) 4 5 6).1
      = { status := 401, body := .ErrorResponse "Invalid OTP" } ∧
    (emptyHandler.VerifyOTP sampleMAC (some ⟨"+100", "000000"⟩) 1 2 3).2.store
      = emptyHandler.store ∧
    (sampleHandler.VerifyOTP sampleMAC (some ⟨"+100", "000000"⟩) 4 5 6).2.store
      = sampleHandler.store :=
  C8_wrong_and_missing_code_alike sampleMAC emptyHandler sampleHandler "+100" "000000"
    1 2 3 4 5 6 (by decide) (by decide) (by decide) (by decide) (by decide)
    ⟨⟨"123456", some 125⟩, by decide, by decide⟩

/-- C10 (the code at the failing input). When the random draw fails, `generateRandomOTP`
panics; `Generate` returns neither a code nor an error and writes nothing; `RequestOTP`
for `+100` ends in the panic, not in a 503 response, and `otp:+100` keeps its record. -/
theorem C10_random_failure_panics :
    otp.generateRandomOTP .err
      = .panic "runtime error: invalid memory address or nil pointer dereference" ∧
    (otp.sampleOTP.Generate "+100" .err).1
      = .panic "runtime error: invalid memory address or nil pointer dereference" ∧
    (otp.sampleOTP.Generate "+100" .err).2.client.data (otpKey "+100")
      = some ⟨"123456", some 125⟩ ∧
    (sampleHandler.RequestOTP (some ⟨"+100"⟩) .err).1
      = .panic "runtime error: invalid memory address or nil pointer dereference" ∧
    (sampleHandler.RequestOTP (some ⟨"+100"⟩) .err).2.otp.client.data (otpKey "+100")
      = some ⟨"123456", some 125⟩ := by
  refine ⟨rfl, rfl, by decide, by decide, by decide⟩

end api

/-! ## The shape of generated codes -/

theorem decimal_six (m : Nat) (h1 : 100000 ≤ m) (h2 : m < 1000000) :
    decimal m = [digitChar (m / 10 / 10 / 10 / 10 / 10), digitChar (m / 10 / 10 / 10 / 10 % 10),
      digitChar (m / 10 / 10 / 10 % 10), digitChar (m / 10 / 10 % 10), digitChar (m / 10 % 10),
      digitChar (m % 10)] := by
  rw [decimal_eq, if_neg (show ¬ m < 10 by omega),
    decimal_eq, if_neg (show ¬ m / 10 < 10 by omega),
    decimal_eq, if_neg (show ¬ m / 10 / 10 < 10 by omega),
    decimal_eq, if_neg (show ¬ m / 10 / 10 / 10 < 10 by omega),
    decimal_eq, if_neg (show ¬ m / 10 / 10 / 10 / 10 < 10 by omega),
    decimal_eq, if_pos (show m / 10 / 10 / 10 / 10 / 10 < 10 by omega)]
  rfl

theorem decimalValue_decimal (m : Nat) : decimalValue ⟨decimal m⟩ = some m := by
  unfold decimalValue
  rw [if_pos ⟨decimal_ne_nil m, decimal_all_digits m⟩, decimal_value]

theorem decimal_length_six (m : Nat) (h1 : 100000 ≤ m) (h2 : m < 1000000) :
    (decimal m).length = 6 := by
  rw [decimal_six m h1 h2]
  simp only [List.length_cons, List.length_nil]

theorem zeroPad_of_length (w : Nat) (ds : List Char) (h : ds.length = w) :
    zeroPad w ds = ds := by
  unfold zeroPad
  rw [h, Nat.sub_self]
  rfl

namespace otp

theorem generateRandomOTP_ok (n : Nat) (hn : n < 900000) :
    generateRandomOTP (.ok n) = .ret ⟨decimal (n + 100000)⟩ := by
  show GoResult.ret (Sprintf06d (int64 (int64 (n : Int) + 100000))) = _
  rw [int64_of_small (n : Int) (by omega) (by omega),
    int64_of_small ((n : Int) + 100000) (by omega) (by omega)]
  unfold Sprintf06d
  have hneg : ¬ ((n : Int) + 100000 < 0) := by omega
  have habs : ((n : Int) + 100000).natAbs = n + 100000 := by omega
  rw [if_neg hneg, habs, zeroPad_of_length 6 _ (decimal_length_six _ (by omega) (by omega))]

/-- C9. Code shape: for a draw `n < 900000`, `generateRandomOTP` returns a string of exactly
six decimal digits whose value is `n + 100000`, between 100000 and 999999, with a first
digit other than `0`; and every six-digit string with a value in that range is returned
for exactly one draw. -/
theorem C9_code_shape :
    (∀ n : Nat, n < 900000 →
      ∃ s : String, generateRandomOTP (.ok n) = .ret s ∧ s.length = 6 ∧
        s.data.all isDigit = true ∧ decimalValue s = some (n + 100000) ∧
        100000 ≤ n + 100000 ∧ n + 100000 ≤ 999999 ∧ s.data.head? ≠ some '0') ∧
    (∀ (s : String) (m : Nat), s.length = 6 → decimalValue s = some m → 100000 ≤ m →
      m ≤ 999999 → ∃! n : Nat, n < 900000 ∧ generateRandomOTP (.ok n) = .ret s) := by
  constructor
  · intro n hn
    refine ⟨⟨decimal (n + 100000)⟩, generateRandomOTP_ok n hn, ?_, decimal_all_digits (n + 100000),
      decimalValue_decimal _, by omega, by omega, decimal_head (n + 100000) (by omega)⟩
    exact decimal_length_six (n + 100000) (by omega) (by omega)
  · intro s m hlen hval hlo hhi
    have hs : (⟨decimal m⟩ : String) = s := by
      obtain ⟨cs⟩ := s
      have hl : cs.length = 6 := hlen
      unfold decimalValue at hval
      split at hval
      · rename_i hcond
        obtain ⟨-, hall⟩ := hcond
        simp only [Option.some.injEq] at hval
        match cs, hl with
        | [a, b, c, d, e, f], _ =>
          simp only [List.all_cons, List.all_nil, Bool.and_true, Bool.and_eq_true] at hall
          obtain ⟨ha, hb, hc, hd, he, hf⟩ := hall
          simp only [List.foldl_cons, List.foldl_nil] at hval
          have ba := digitVal_lt ha
          have bb := digitVal_lt hb
          have bc := digitVal_lt hc
          have bd := digitVal_lt hd
          have be := digitVal_lt he
          have bf := digitVal_lt hf
          rw [decimal_six m hlo (by omega)]
          rw [show m / 10 / 10 / 10 / 10 / 10 = digitVal a by omega,
            show m / 10 / 10 / 10 / 10 % 10 = digitVal b by omega,
            show m / 10 / 10 / 10 % 10 = digitVal c by omega,
            show m / 10 / 10 % 10 = digitVal d by omega,
            show m / 10 % 10 = digitVal e by omega,
            show m % 10 = digitVal f by omega,
            digitChar_digitVal ha, digitChar_digitVal hb, digitChar_digitVal hc,
            digitChar_digitVal hd, digitChar_digitVal he, digitChar_digitVal hf]
      · exact absurd hval (by simp)
    refine ⟨m - 100000, ⟨by omega, ?_⟩, ?_⟩
    · rw [generateRandomOTP_ok _ (by omega), show m - 100000 + 100000 = m by omega, hs]
    · rintro n ⟨hn, hgen⟩
      rw [generateRandomOTP_ok n hn] at hgen
      have h2 : (⟨decimal (n + 100000)⟩ : String) = s := by
        simpa using hgen
      have h3 := decimalValue_decimal (n + 100000)
      rw [h2, hval] at h3
      simp only [Option.some.injEq] at h3
      omega

theorem C9_code_shape_witness :
    (∃ s : String, generateRandomOTP (.ok 23456) = .ret s ∧ s.length = 6 ∧
      s.data.all isDigit = true ∧ decimalValue s = some (23456 + 100000) ∧
      100000 ≤ 23456 + 100000 ∧ 23456 + 100000 ≤ 999999 ∧ s.data.head? ≠ some '0') ∧
    (∃! n : Nat, n < 900000 ∧ generateRandomOTP (.ok n) = .ret "999999") :=
  ⟨C9_code_shape.1 23456 (by decide),
    C9_code_shape.2 "999999" 999999 (by decide) (by decide) (by decide) (by decide)⟩

end otp

/-! ## Package `auth`: properties -/

namespace auth

/-- The token that `GenerateJWT` returns. -/
theorem GenerateJWT_eq (mac : jwt.MAC) (p s : String) (t1 t2 t3 : Nat) :
    GenerateJWT mac p s t1 t2 t3 =
      (.compact (some { typ := some "JWT", alg := some "HS256" })
        (some { Phone := p,
                RegisteredClaims :=
                  { Issuer := "otp-auth-service", Subject := p, Audience := [],
                    ExpiresAt := some (jwt.NewNumericDate (t1 + 24 * jwt.Hour)),
                    NotBefore := some (jwt.NewNumericDate t3),
                    IssuedAt := some (jwt.NewNumericDate t2), ID := "" } })
        (some (mac "HS256" s
          ({ typ := some "JWT", alg := some "HS256" },
            { Phone := p,
              RegisteredClaims :=
                { Issuer := "otp-auth-service", Subject := p, Audience := [],
                  ExpiresAt := some (jwt.NewNumericDate (t1 + 24 * jwt.Hour)),
                  NotBefore := some (jwt.NewNumericDate t3),
                  IssuedAt := some (jwt.NewNumericDate t2), ID := "" } }))), none) := rfl

theorem GetSigningMethod_HS256 : jwt.GetSigningMethod "HS256" = some (.HMAC "HS256") := by
  unfold jwt.GetSigningMethod
  rw [if_pos (Or.inl rfl)]

/-- A token signed with `HS256` under `s`, checked under `s` inside its validity interval. -/
theorem ValidateJWT_signed (mac : jwt.MAC) (p s : String) (now e n : Nat)
    (rc : jwt.RegisteredClaims) (hexp : rc.ExpiresAt = some e) (hnbf : rc.NotBefore = some n)
    (h1 : now < e) (h2 : n ≤ now) :
    ValidateJWT mac
      (.compact (some { typ := some "JWT", alg := some "HS256" })
        (some { Phone := p, RegisteredClaims := rc })
        (some (mac "HS256" s
          ({ typ := some "JWT", alg := some "HS256" }, { Phone := p, RegisteredClaims := rc }))))
      s now = (p, none) := by
  have h2 : ¬ now < n := Nat.not_lt.mpr h2
  unfold ValidateJWT jwt.ParseWithClaims
  simp only [GetSigningMethod_HS256, jwt.SigningMethod.Verify, decide_True, if_true,
    jwt.Validate, hexp, hnbf, h1, h2, if_false]

/-- C6 (as amended). Token round trip: when `GenerateJWT p s` returns the token `tok`
without error, `ValidateJWT tok s` returns `(p, nil)` at every time `now` from the last
clock reading of the issuance up to, but not including, the expiry written into the token:
the first clock reading plus 24 hours, rounded down to a whole second. -/
theorem C6_token_round_trip (mac : jwt.MAC) (p s : String) (t1 t2 t3 : Nat)
    (tok : jwt.TokenString) (now : Nat)
    (hgen : GenerateJWT mac p s t1 t2 t3 = (tok, none))
    (hfrom : t3 ≤ now) (hbefore : now < jwt.NewNumericDate (t1 + 24 * jwt.Hour)) :
    ValidateJWT mac tok s now = (p, none) := by
  rw [GenerateJWT_eq] at hgen
  have htok := (Prod.mk.inj hgen).1
  subst htok
  have hnbf : jwt.NewNumericDate t3 ≤ now := by
    unfold jwt.NewNumericDate; omega
  exact ValidateJWT_signed mac p s now _ _ _ rfl rfl hbefore hnbf

theorem C6_token_round_trip_witness :
    ValidateJWT api.sampleMAC
      (GenerateJWT api.sampleMAC "+100" "k" 500000000 500000001 500000002).1 "k"
      86399999999999 = ("+100", none) :=
  C6_token_round_trip api.sampleMAC "+100" "k" 500000000 500000001 500000002 _
    86399999999999 rfl (by decide) (by decide)

/-- C6 (as stated) fails: a token issued half a second after a full second is refused as
expired 0.3 seconds before 24 hours have passed since its issuance. -/
theorem C6_counterexample :
    (GenerateJWT api.sampleMAC "+100" "k" 500000000 500000000 500000000).2 = none ∧
    500000000 ≤ 86400200000000 ∧ 86400200000000 < 500000000 + 24 * jwt.Hour ∧
    ValidateJWT api.sampleMAC
      (GenerateJWT api.sampleMAC "+100" "k" 500000000 500000000 500000000).1 "k"
      86400200000000 = ("", some .tokenExpired) := by
  refine ⟨rfl, by decide, by decide, by decide⟩

/-- C7. Algorithm check: a token whose header declares a signing method other than `HS256`,
`HS384` and `HS512` makes `ValidateJWT` return an empty phone and an error, for every
secret, whatever the claims and signature segments hold and whenever it is checked. -/
theorem C7_non_hmac_rejected (mac : jwt.MAC) (secret : String) (now : Nat)
    (header : jwt.Header) (alg : String) (claims : Option Claims)
    (sig : Option (List Nat)) (halg : header.alg = some alg)
    (hnot : alg ≠ "HS256" ∧ alg ≠ "HS384" ∧ alg ≠ "HS512") :
    (ValidateJWT mac (.compact (some header) claims sig) secret now).1 = "" ∧
    (ValidateJWT mac (.compact (some header) claims sig) secret now).2 ≠ none := by
  obtain ⟨h1, h2, h3⟩ := hnot
  unfold ValidateJWT jwt.ParseWithClaims
  cases claims with
  | none => simp
  | some c =>
    simp only [halg, jwt.GetSigningMethod, h1, h2, h3, or_self, if_false]
    cases sig with
    | none => split_ifs <;> simp
    | some sg => split_ifs <;> simp

theorem C7_non_hmac_rejected_witness :
    (ValidateJWT api.sampleMAC
      (.compact (some { typ := some "JWT", alg := some "none" })
        (some { Claims.zero with Phone := "+100" }) (some [])) "k" 5).1 = "" ∧
    (ValidateJWT api.sampleMAC
      (.compact (some { typ := some "JWT", alg := some "none" })
        (some { Claims.zero with Phone := "+100" }) (some [])) "k" 5).2 ≠ none :=
  C7_non_hmac_rejected api.sampleMAC "k" 5 { typ := some "JWT", alg := some "none" } "none"
    (some { Claims.zero with Phone := "+100" }) (some []) rfl (by decide)

end auth

/-! ## The rate counter along reachable states -/

namespace otp

open redis

theorem lookup_some_data {c : Client} {key : String} {e : Entry}
    (h : c.lookup key = some e) : c.data key = some e := by
  unfold Client.lookup at h
  cases hd : c.data key with
  | none => simp [hd] at h
  | some e0 =>
    simp only [hd] at h
    split at h
    · exact h
    · exact absurd h (by simp)

theorem countsOnly_update {data : String → Option Entry} (hwf : countsOnly data) (key : String)
    (j : Nat) (x : Option Nat) (h1 : 1 ≤ j) (h2 : (j : Int) ≤ maxInt64) :
    countsOnly (Function.update data key (some ⟨formatInt j, x⟩)) := by
  intro k e he
  by_cases hk : k = key
  · subst hk
    simp only [Function.update_same, Option.some.injEq] at he
    subst he
    exact ⟨j, h1, h2, rfl⟩
  · rw [Function.update_noteq hk] at he
    exact hwf k e he

theorem countsOnly_erase {data : String → Option Entry} (hwf : countsOnly data) (key : String) :
    countsOnly (Function.update data key none) := by
  intro k e he
  by_cases hk : k = key
  · subst hk
    simp at he
  · rw [Function.update_noteq hk] at he
    exact hwf k e he

/-- What `INCR` does on a key space of counts: it fails and changes nothing, or it returns
the count `j ≥ 1` that it has just written under the key. -/
theorem Incr_counts (c : Client) (key : String) (hwf : countsOnly c.data) :
    ((c.Incr key).1.2 ≠ none ∧ (c.Incr key).2.data = c.data) ∨
    (∃ (j : Nat) (x : Option Nat), 1 ≤ j ∧ (j : Int) ≤ maxInt64 ∧
      (c.Incr key).1 = ((j : Int), none) ∧
      (c.Incr key).2.data = Function.update c.data key (some ⟨formatInt j, x⟩)) := by
  unfold Client.Incr
  rcases hn : c.next with ⟨b, c1⟩
  have hd : c1.data = c.data := by have := next_data c; rwa [hn] at this
  cases b with
  | true => left; exact ⟨by simp, hd⟩
  | false =>
    simp only
    cases hl : c1.lookup key with
    | none =>
      right
      refine ⟨1, none, le_refl 1, by unfold maxInt64; decide, rfl, ?_⟩
      simp [hd]
    | some e =>
      obtain ⟨j, hj1, hj2, hval⟩ := hwf key e (hd ▸ lookup_some_data hl)
      have hparse : parseInt64 e.val = some (j : Int) := by
        rw [hval]; exact parseInt64_formatInt j (by unfold maxInt64 at hj2; omega)
      simp only [hparse]
      by_cases hmax : (j : Int) = maxInt64
      · left; simp [hmax, hd]
      · right
        refine ⟨j + 1, e.expireAt, by omega, ?_, ?_, ?_⟩
        · unfold maxInt64 at hj2 hmax ⊢; push_cast; omega
        · simp [hmax]
        · simp [hmax, hd]

/-- What `EXPIRE` does to the key space: nothing, a new expiry on the entry under the
key, or the removal of the key. -/
theorem Expire_data (c : Client) (key : String) (w : Int) :
    (c.Expire key w).2.data = c.data ∨
    (∃ (e : Entry) (x : Option Nat), c.data key = some e ∧
      (c.Expire key w).2.data = Function.update c.data key (some ⟨e.val, x⟩)) ∨
    (c.Expire key w).2.data = Function.update c.data key none := by
  unfold Client.Expire
  rcases hn : c.next with ⟨b, c1⟩
  have hd : c1.data = c.data := by have := next_data c; rwa [hn] at this
  cases b with
  | true => left; exact hd
  | false =>
    simp only
    cases hl : c1.lookup key with
    | none => left; exact hd
    | some e =>
      simp only
      by_cases hw : 0 < w
      · right; left
        exact ⟨e, some (c1.now + w.toNat), hd ▸ lookup_some_data hl, by simp [hw, hd]⟩
      · right; right
        simp [hw, hd]

/-- What `RateLimit` does on a key space of counts: the key space stays one, the limit is
kept, and a call that returns `(b, nil)` has left under `rate:p`, if anything, a count `j`
with `b` saying whether `j ≤ rateLimit`. -/
theorem RateLimit_counts (r : RedisOTP) (p : String) (hwf : countsOnly r.client.data) :
    countsOnly (r.RateLimit p).2.client.data ∧
    (r.RateLimit p).2.rateLimit = r.rateLimit ∧
    ∀ b : Bool, (r.RateLimit p).1 = (b, none) →
      ∃ j : Nat, 1 ≤ j ∧ (j : Int) ≤ maxInt64 ∧ b = decide ((j : Int) ≤ r.rateLimit) ∧
        ∀ e : Entry, (r.RateLimit p).2.client.data (rateKey p) = some e →
          e.val = formatInt j := by
  have hI := Incr_counts r.client (rateKey p) hwf
  unfold RedisOTP.RateLimit
  dsimp only
  rcases hi : r.client.Incr (rateKey p) with ⟨⟨cnt, err⟩, c⟩
  rw [hi] at hI
  rcases hI with ⟨herr, hdata⟩ | ⟨j, x, hj1, hj2, hres, hdata⟩
  · cases err with
    | none => exact absurd rfl herr
    | some er =>
      refine ⟨?_, rfl, ?_⟩
      · show countsOnly c.data
        rw [show c.data = r.client.data from hdata]; exact hwf
      · intro b hb
        simp at hb
  · simp only [Prod.mk.injEq] at hres
    obtain ⟨rfl, rfl⟩ := hres
    have hdata : c.data = Function.update r.client.data (rateKey p) (some ⟨formatInt j, x⟩) :=
      hdata
    have hwfc : countsOnly c.data := by
      rw [hdata]; exact countsOnly_update hwf _ j x hj1 hj2
    have hint : int64 (j : Int) = (j : Int) :=
      int64_of_small _ (by omega) (by unfold maxInt64 at hj2; omega)
    have hckey : c.data (rateKey p) = some ⟨formatInt j, x⟩ := by rw [hdata]; simp
    have hc2 : ∀ c2 : Client,
        c2 = (if (j : Int) = 1 then (c.Expire (rateKey p) r.rateLimitWindow).2 else c) →
        countsOnly c2.data ∧ ∀ e : Entry, c2.data (rateKey p) = some e → e.val = formatInt j := by
      intro c2 hc2
      have hkeep : ∀ e : Entry, c.data (rateKey p) = some e → e.val = formatInt j := by
        intro e he
        rw [hckey] at he
        simp only [Option.some.injEq] at he
        rw [← he]
      by_cases h1 : (j : Int) = 1
      · rw [if_pos h1] at hc2
        subst hc2
        rcases Expire_data c (rateKey p) r.rateLimitWindow with hE | ⟨e0, y, he0, hE⟩ | hE
        · rw [hE]; exact ⟨hwfc, hkeep⟩
        · have hv : e0.val = formatInt j := hkeep e0 he0
          rw [hE, hv]
          refine ⟨countsOnly_update hwfc _ j y hj1 hj2, ?_⟩
          intro e he
          simp only [Function.update_same, Option.some.injEq] at he
          rw [← he]
        · rw [hE]
          refine ⟨countsOnly_erase hwfc _, ?_⟩
          intro e he
          simp at he
      · rw [if_neg h1] at hc2
        subst hc2
        exact ⟨hwfc, hkeep⟩
    obtain ⟨hA, hB⟩ := hc2 _ rfl
    refine ⟨hA, rfl, ?_⟩
    intro b hb
    refine ⟨j, hj1, hj2, ?_, hB⟩
    have := (Prod.mk.inj hb).1
    rw [← this, hint]

/-- Along the reachable states the key space holds counts only and the limit is kept. -/
theorem reachable_counts {r0 r : RedisOTP} (h0 : ∀ key, r0.client.data key = none)
    (hr : RateReachable r0 r) : countsOnly r.client.data ∧ r.rateLimit = r0.rateLimit := by
  induction hr with
  | init => exact ⟨fun key e he => by rw [h0 key] at he; exact absurd he (by simp), rfl⟩
  | call r p _ ih =>
    obtain ⟨h1, h2, -⟩ := RateLimit_counts r p ih.1
    exact ⟨h1, h2.trans ih.2⟩
  | wait r d _ ih => exact ih

theorem reachable_run (r0 : RedisOTP) (p : String) :
    ∀ (ds : List Nat) (r : RedisOTP), RateReachable r0 r →
      RateReachable r0 (r.rateLimitRun p ds).2
  | [], _, hr => hr
  | d :: ds, r, hr =>
    reachable_run r0 p ds ((r.advance d).RateLimit p).2
      (RateReachable.call _ p (RateReachable.wait r d hr))

/-- What `INCR` does on a key space of counts, against the count it finds: it fails, or it
writes 1 where no live counter was, or it writes the successor of the live count and keeps
its expiry. The clock stays. -/
theorem Incr_step (c : Client) (key : String) (hwf : countsOnly c.data) :
    (c.Incr key).2.now = c.now ∧
    ((c.Incr key).1.2 ≠ none ∨
     (c.lookup key = none ∧ (c.Incr key).1 = (1, none) ∧
      (c.Incr key).2.data = Function.update c.data key (some ⟨formatInt 1, none⟩)) ∨
     (∃ (e0 : Entry) (j0 : Nat), c.lookup key = some e0 ∧ 1 ≤ j0 ∧ (j0 : Int) < maxInt64 ∧
      e0.val = formatInt j0 ∧ (c.Incr key).1 = (((j0 + 1 : Nat) : Int), none) ∧
      (c.Incr key).2.data
        = Function.update c.data key (some ⟨formatInt ((j0 + 1 : Nat) : Int), e0.expireAt⟩))) := by
  unfold Client.Incr
  rcases hn : c.next with ⟨b, c1⟩
  have hd : c1.data = c.data := by have := next_data c; rwa [hn] at this
  have ht : c1.now = c.now := by have := next_now c; rwa [hn] at this
  have hl : c1.lookup key = c.lookup key := lookup_congr ht hd key
  cases b with
  | true => exact ⟨ht, Or.inl (by simp)⟩
  | false =>
    simp only [hl]
    cases hlk : c.lookup key with
    | none => exact ⟨ht, Or.inr (Or.inl ⟨rfl, rfl, by simp [hd]⟩)⟩
    | some e =>
      obtain ⟨j, hj1, hj2, hval⟩ := hwf key e (lookup_some_data hlk)
      have hparse : parseInt64 e.val = some (j : Int) := by
        rw [hval]; exact parseInt64_formatInt j (by unfold maxInt64 at hj2; omega)
      simp only [hparse]
      by_cases hmax : (j : Int) = maxInt64
      · simp only [hmax, if_true]
        exact ⟨ht, Or.inl (by simp)⟩
      · simp only [hmax, if_false]
        refine ⟨ht, Or.inr (Or.inr ⟨e, j, rfl, hj1, lt_of_le_of_ne hj2 hmax, hval, ?_, ?_⟩)⟩
        · simp
        · simp [hd]

/-- What `EXPIRE` does to a live entry: nothing (the command failed), a new expiry one
window from now, or, for a window that is not positive, the removal of the key. -/
theorem Expire_step (c : Client) (key : String) (w : Int) (e : Entry)
    (hl : c.lookup key = some e) :
    (c.Expire key w).2.now = c.now ∧
    ((c.Expire key w).2.data = c.data ∨
     (0 < w ∧ (c.Expire key w).2.data
        = Function.update c.data key (some ⟨e.val, some (c.now + w.toNat)⟩)) ∨
     (¬ 0 < w ∧ (c.Expire key w).2.data = Function.update c.data key none)) := by
  unfold Client.Expire
  rcases hn : c.next with ⟨b, c1⟩
  have hd : c1.data = c.data := by have := next_data c; rwa [hn] at this
  have ht : c1.now = c.now := by have := next_now c; rwa [hn] at this
  have hl1 : c1.lookup key = some e := (lookup_congr ht hd key).trans hl
  cases b with
  | true => exact ⟨ht, Or.inl hd⟩
  | false =>
    simp only [hl1]
    by_cases hw : 0 < w
    · simp only [hw, if_true]
      exact ⟨ht, Or.inr (Or.inl ⟨trivial, by simp [hd, ht]⟩)⟩
    · simp only [hw, if_false]
      exact ⟨ht, Or.inr (Or.inr ⟨not_false, by simp [hd]⟩)⟩

theorem counter_of_lookup_none {r : RedisOTP} {p : String}
    (h : r.client.lookup (rateKey p) = none) : r.counter p = 0 := by
  unfold RedisOTP.counter; rw [h]

theorem counter_of_lookup_some {r : RedisOTP} {p : String} {x : Option Nat} (j : Nat)
    (hj : (j : Int) ≤ maxInt64)
    (h : r.client.lookup (rateKey p) = some ⟨formatInt j, x⟩) : r.counter p = j := by
  unfold RedisOTP.counter
  rw [h]
  simp only
  rw [parseInt64_formatInt j (by unfold maxInt64 at hj; omega)]
  rfl

/-- One call of `RateLimit` on a key space of counts, against the count it finds: a call
that returns `(b, nil)` has `b` say whether the count plus one is within the limit, leaves
nothing but that successor under `rate:p`, and for a positive window does leave it. -/
theorem RateLimit_step (r : RedisOTP) (p : String) (hwf : countsOnly r.client.data) (b : Bool)
    (hcall : (r.RateLimit p).1 = (b, none)) :
    (b = true ↔ r.counter p + 1 ≤ r.rateLimit) ∧
    (∀ e : Entry, (r.RateLimit p).2.client.lookup (rateKey p) = some e →
      parseInt64 e.val = some (r.counter p + 1)) ∧
    (0 < r.rateLimitWindow → (r.RateLimit p).2.counter p = r.counter p + 1) := by
  obtain ⟨hnow, hI⟩ := Incr_step r.client (rateKey p) hwf
  unfold RedisOTP.RateLimit at hcall ⊢
  dsimp only at hcall ⊢
  rcases hi : r.client.Incr (rateKey p) with ⟨⟨cnt, err⟩, c⟩
  rw [hi] at hI hnow hcall
  have hnow : c.now = r.client.now := hnow
  rcases hI with herr | ⟨hnone, hres, hdata⟩ | ⟨e0, j0, hsome, hj1, hj2, hval, hres, hdata⟩
  · cases err with
    | none => exact absurd rfl herr
    | some er => simp at hcall
  · -- no live counter: the call writes 1 and then sets the expiry
    simp only [Prod.mk.injEq] at hres
    obtain ⟨rfl, rfl⟩ := hres
    have hdata : c.data = Function.update r.client.data (rateKey p) (some ⟨formatInt 1, none⟩) :=
      hdata
    have hcnt : r.counter p = 0 := counter_of_lookup_none hnone
    have hint : int64 1 = 1 := int64_of_small 1 (by decide) (by decide)
    have hl : c.lookup (rateKey p) = some ⟨formatInt 1, none⟩ :=
      lookup_of_data (by rw [hdata]; simp) rfl
    simp only [if_true, hint, Prod.mk.injEq, and_true] at hcall ⊢
    obtain ⟨hnowE, hE⟩ := Expire_step c (rateKey p) r.rateLimitWindow _ hl
    have hb : (b = true ↔ r.counter p + 1 ≤ r.rateLimit) := by
      rw [hcnt, ← hcall]; simp
    have hp1 : parseInt64 (formatInt 1) = some (r.counter p + 1) := by
      rw [hcnt]; exact parseInt64_formatInt 1 (by decide)
    rcases hE with hE | ⟨hw, hE⟩ | ⟨hw, hE⟩
    · have hl2 : (c.Expire (rateKey p) r.rateLimitWindow).2.lookup (rateKey p)
          = some ⟨formatInt 1, none⟩ := (lookup_congr hnowE hE (rateKey p)).trans hl
      refine ⟨hb, ?_, ?_⟩
      · intro e he
        rw [hl2] at he
        simp only [Option.some.injEq] at he
        rw [← he]; exact hp1
      · intro _
        rw [hcnt]
        exact counter_of_lookup_some (x := none) 1 (by unfold maxInt64; decide) hl2
    · have hl2 : (c.Expire (rateKey p) r.rateLimitWindow).2.lookup (rateKey p)
          = some ⟨formatInt 1, some (c.now + r.rateLimitWindow.toNat)⟩ := by
        apply lookup_of_data
        · rw [hE]; simp
        · simp only [Entry.alive, hnowE, decide_eq_true_eq]; omega
      refine ⟨hb, ?_, ?_⟩
      · intro e he
        rw [hl2] at he
        simp only [Option.some.injEq] at he
        rw [← he]; exact hp1
      · intro _
        rw [hcnt]
        exact counter_of_lookup_some 1 (by unfold maxInt64; decide) hl2
    · refine ⟨hb, ?_, fun h => absurd h hw⟩
      intro e he
      have := lookup_some_data he
      rw [hE] at this
      simp at this
  · -- a live counter: the call writes its successor and keeps the expiry
    simp only [Prod.mk.injEq] at hres
    obtain ⟨rfl, rfl⟩ := hres
    have hdata : c.data = Function.update r.client.data (rateKey p)
        (some ⟨formatInt ((j0 + 1 : Nat) : Int), e0.expireAt⟩) := hdata
    have hj2' : (j0 : Int) < 9223372036854775807 := hj2
    have hcnt : r.counter p = j0 := by
      unfold RedisOTP.counter
      rw [hsome]
      simp only
      rw [hval, parseInt64_formatInt j0 (by omega)]
      rfl
    have hint : int64 ((j0 + 1 : Nat) : Int) = ((j0 + 1 : Nat) : Int) :=
      int64_of_small _ (by omega) (by push_cast; omega)
    have hne : ¬ (((j0 + 1 : Nat) : Int) = 1) := by omega
    simp only [hne, if_false, hint, Prod.mk.injEq, and_true] at hcall ⊢
    have halive : e0.alive r.client.now = true := by
      have h := hsome
      unfold Client.lookup at h
      rw [lookup_some_data hsome] at h
      simp only at h
      by_contra hna
      simp [hna] at h
    have hl2 : c.lookup (rateKey p)
        = some ⟨formatInt ((j0 + 1 : Nat) : Int), e0.expireAt⟩ := by
      apply lookup_of_data
      · rw [hdata]; simp
      · rw [hnow]; exact halive
    have hp1 : parseInt64 (formatInt ((j0 + 1 : Nat) : Int)) = some (r.counter p + 1) := by
      rw [hcnt, parseInt64_formatInt (j0 + 1) (by omega)]
      push_cast; rfl
    refine ⟨?_, ?_, ?_⟩
    · rw [hcnt, ← hcall]; simp
    · intro e he
      rw [hl2] at he
      simp only [Option.some.injEq] at he
      rw [← he]; exact hp1
    · intro _
      rw [hcnt]
      have := counter_of_lookup_some (r := { r with client := c }) (p := p) (j0 + 1)
        (by unfold maxInt64; push_cast; omega) hl2
      rw [this]; push_cast; rfl

/-- Along the reachable states the window length is kept. -/
theorem reachable_window {r0 r : RedisOTP} (hr : RateReachable r0 r) :
    r.rateLimitWindow = r0.rateLimitWindow := by
  induction hr with
  | init => rfl
  | call r p _ ih =>
    have : (r.RateLimit p).2.rateLimitWindow = r.rateLimitWindow := by
      unfold RedisOTP.RateLimit
      dsimp only
      rcases r.client.Incr (rateKey p) with ⟨⟨cnt, err⟩, c⟩
      cases err <;> rfl
    exact this.trans ih
  | wait r d _ ih => exact ih

/-- C11 (as amended). Rate counter, call by call: in every state reached from an empty key
space by calls of `RateLimit` and the passing of time, (1) a live counter under `rate:p`
holds a count `j ≥ 1`; (2) a call of `RateLimit p` that returns `(b, nil)` has found the
count `n` (0 without a live counter), returns `b = true` exactly when `n + 1 ≤ rateLimit`,
leaves no other value than `n + 1` under `rate:p`, and for a positive window does leave
it: rejected calls are counted too; (3) when the store commands succeed and no counter is
live, after `k` calls inside one window the counter is `k`, above the limit as soon as
`k > rateLimit`. -/
theorem C11_counter_after_call (r0 r : RedisOTP) (p : String)
    (h0 : ∀ key, r0.client.data key = none) (hr : RateReachable r0 r) :
    (∀ e : Entry, r.client.lookup (rateKey p) = some e →
      ∃ j : Nat, 1 ≤ j ∧ parseInt64 e.val = some (j : Int)) ∧
    (∀ b : Bool, (r.RateLimit p).1 = (b, none) →
      (b = true ↔ r.counter p + 1 ≤ r0.rateLimit) ∧
      (∀ e : Entry, (r.RateLimit p).2.client.lookup (rateKey p) = some e →
        parseInt64 e.val = some (r.counter p + 1)) ∧
      (0 < r0.rateLimitWindow → (r.RateLimit p).2.counter p = r.counter p + 1)) ∧
    (∀ (d0 : Nat) (ds : List Nat), r.client.reliable → r.client.lookup (rateKey p) = none →
      (ds.sum : Int) < r0.rateLimitWindow → (ds.length : Int) < maxInt64 →
      (r.rateLimitRun p (d0 :: ds)).2.counter p = ((ds.length + 1 : Nat) : Int) ∧
      (r0.rateLimit < ((ds.length + 1 : Nat) : Int) →
        r0.rateLimit < (r.rateLimitRun p (d0 :: ds)).2.counter p)) := by
  obtain ⟨hwf, hlim⟩ := reachable_counts h0 hr
  have hwin := reachable_window hr
  refine ⟨?_, ?_, ?_⟩
  · intro e he
    obtain ⟨j, hj1, hj2, hval⟩ := hwf _ e (lookup_some_data he)
    exact ⟨j, hj1, by rw [hval]; exact parseInt64_formatInt j (by unfold maxInt64 at hj2; omega)⟩
  · intro b hb
    have h := RateLimit_step r p hwf b hb
    rw [hlim, hwin] at h
    exact h
  · intro d0 ds hrel hnone hsum hlen
    rw [← hwin] at hsum
    have hrel0 : (r.advance d0).client.reliable := hrel
    have hl0 : (r.advance d0).client.lookup (rateKey p) = none := lookup_none_advance hnone d0
    obtain ⟨-, -, -, f4, f5, f6⟩ := RateLimit_fresh hrel0 hl0
    have hwpos : 0 < (r.advance d0).rateLimitWindow := by
      show 0 < r.rateLimitWindow
      omega
    rw [if_pos hwpos] at f6
    have hnow0 : (r.advance d0).client.now = r.client.now + d0 := rfl
    have hw0 : (r.advance d0).rateLimitWindow = r.rateLimitWindow := rfl
    rw [hnow0, hw0] at f6
    rw [hnow0] at f4
    obtain ⟨-, -, -, g4, -, g6⟩ :=
      rateLimitRun_open p (r.client.now + d0 + r.rateLimitWindow.toNat) ds
        ((r.advance d0).RateLimit p).2 1 f5 (le_refl 1) f6 (by rw [f4]; omega)
        (by unfold maxInt64 at hlen ⊢; push_cast; omega)
    have hrun : (r.rateLimitRun p (d0 :: ds)).2
        = (((r.advance d0).RateLimit p).2.rateLimitRun p ds).2 := rfl
    have hcount : (r.rateLimitRun p (d0 :: ds)).2.counter p = ((ds.length + 1 : Nat) : Int) := by
      rw [hrun]
      have hlk : (((r.advance d0).RateLimit p).2.rateLimitRun p ds).2.client.lookup (rateKey p)
          = some ⟨formatInt ((1 + ds.length : Nat) : Int),
              some (r.client.now + d0 + r.rateLimitWindow.toNat)⟩ := by
        apply lookup_of_data g6
        simp only [Entry.alive, g4, f4, decide_eq_true_eq]
        omega
      rw [counter_of_lookup_some (1 + ds.length)
        (by unfold maxInt64 at hlen ⊢; push_cast; omega) hlk]
      push_cast; omega
    exact ⟨hcount, fun h => by rw [hcount]; exact h⟩

theorem C11_counter_after_call_witness :
    (false = true ↔ (emptyOTP.rateLimitRun "+200" [0, 0, 0]).2.counter "+200" + 1
      ≤ emptyOTP.rateLimit) ∧
    ((emptyOTP.rateLimitRun "+200" [0, 0, 0]).2.RateLimit "+200").2.counter "+200"
      = (emptyOTP.rateLimitRun "+200" [0, 0, 0]).2.counter "+200" + 1 ∧
    (emptyOTP.rateLimitRun "+200" (0 :: [1, 1, 1, 1])).2.counter "+200" = ((4 + 1 : Nat) : Int) ∧
    emptyOTP.rateLimit < (emptyOTP.rateLimitRun "+200" (0 :: [1, 1, 1, 1])).2.counter "+200" :=
  have h := (C11_counter_after_call emptyOTP (emptyOTP.rateLimitRun "+200" [0, 0, 0]).2 "+200"
    (fun _ => rfl) (reachable_run emptyOTP "+200" [0, 0, 0] emptyOTP RateReachable.init)).2.1
    false (by decide)
  have g := (C11_counter_after_call emptyOTP emptyOTP "+200" (fun _ => rfl)
    RateReachable.init).2.2 0 [1, 1, 1, 1] (by decide) (by decide) (by decide) (by decide)
  ⟨h.1, h.2.2 (by decide), g.1, g.2 (by decide)⟩

/-- C11 (as stated) fails: four calls for `+200` inside one window, from an empty key space
with limit 3, leave the live counter 4 under `rate:+200`. -/
theorem C11_counterexample :
    (∀ key, emptyOTP.client.data key = none) ∧
    RateReachable emptyOTP (emptyOTP.rateLimitRun "+200" [0, 0, 0, 0]).2 ∧
    (emptyOTP.rateLimitRun "+200" [0, 0, 0, 0]).2.client.lookup (rateKey "+200")
      = some ⟨"4", some 60⟩ ∧
    parseInt64 "4" = some 4 ∧ ¬ ((4 : Int) ≤ emptyOTP.rateLimit) :=
  ⟨fun _ => rfl, reachable_run emptyOTP "+200" [0, 0, 0, 0] emptyOTP RateReachable.init,
    by decide, by decide, by decide⟩

end otp

/-! ## Concurrent calls of `Validate` -/

namespace otp

open redis

/-- Run to its end, step by step, a call of `Validate` is the method `Validate`. -/
theorem validateStep_twice (r : RedisOTP) (p c : String) :
    ((r.validateStep p c .start).2.validateStep p c (r.validateStep p c .start).1)
      = (.done (r.Validate p c).1, (r.Validate p c).2) := by
  unfold RedisOTP.Validate
  simp only [RedisOTP.validateStep]
  rcases hg : r.client.Get (otpKey p) with ⟨⟨val, err⟩, c1⟩
  cases err with
  | some e =>
    by_cases he : e = .redisNil
    · simp [he, RedisOTP.validateStep]
    · simp [he, RedisOTP.validateStep]
  | none =>
    by_cases hv : val = c
    · simp [hv, RedisOTP.validateStep]
    · simp [hv, RedisOTP.validateStep]

/-- Both calls read the code before either deletes it: both are answered `(true, nil)`. -/
theorem validateTwo_race (r : RedisOTP) (p : String) (e : Entry)
    (hrel : r.client.reliable) (hrec : r.client.lookup (otpKey p) = some e) :
    (validateTwo p e.val [false, true, false, true] r .start .start).1
      = (.done (true, none), .done (true, none)) := by
  have h1 : r.validateStep p e.val .start
      = (.matched, { r with client := r.client.next.2 }) := by
    simp only [RedisOTP.validateStep, Get_some hrel hrec, if_true]
  have hrel1 : ({ r with client := r.client.next.2 } : RedisOTP).client.reliable :=
    next_reliable hrel
  have hrec1 : ({ r with client := r.client.next.2 } : RedisOTP).client.lookup (otpKey p)
      = some e := (lookup_next r.client (otpKey p)).trans hrec
  have h2 : ({ r with client := r.client.next.2 } : RedisOTP).validateStep p e.val .start
      = (.matched, { r with client := r.client.next.2.next.2 }) := by
    simp only [RedisOTP.validateStep, Get_some hrel1 hrec1, if_true]
  simp only [validateTwo, h1, h2]
  rfl

/-- C12 (the code at the failing input). Two concurrent calls of `Validate` for `+100`
with the pending code `123456`: when both `GET`s come before both `DEL`s, both calls
return `(true, nil)`; run one after the other, only the first does. -/
theorem C12_concurrent_validate_race :
    (validateTwo "+100" "123456" [false, true, false, true] sampleOTP .start .start).1
      = (.done (true, none), .done (true, none)) ∧
    (validateTwo "+100" "123456" [false, false, true, true] sampleOTP .start .start).1
      = (.done (true, none), .done (false, none)) := by
  constructor <;> decide

end otp

/-! ## The order of code consumption and user lookup -/

namespace api

open redis otp

/-- C13 (as amended). The code is consumed before the user store is consulted: for
non-empty `p` and `c`, with a live record holding `c` under `otp:p` and every Redis command
succeeding (the `DEL` of `Validate` among them), when `UserExists` returns an error, or
reports no user and `CreateUser` returns an error, `VerifyOTP` answers 500 with an error
body (no token), the record under `otp:p` is gone, and the same request repeated, at once
or after any delay, is answered 401 `Invalid OTP`. -/
theorem C13_code_consumed_before_user_store (mac : jwt.MAC) (h : Handler) (p c : String)
    (e : Entry) (t1 t2 t3 u1 u2 u3 : Nat) (hp : p ≠ "") (hc : c ≠ "")
    (hrel : h.otp.client.reliable) (hrec : h.otp.client.lookup (otpKey p) = some e)
    (hval : e.val = c)
    (hdb : (h.store.UserExists p).1.2 ≠ none ∨
      ((h.store.UserExists p).1 = (false, none) ∧
        ((h.store.UserExists p).2.CreateUser p).1 ≠ none)) :
    (h.VerifyOTP mac (some ⟨p, c⟩) t1 t2 t3).1.status = 500 ∧
    (∃ msg : String,
      (h.VerifyOTP mac (some ⟨p, c⟩) t1 t2 t3).1.body = .ErrorResponse msg) ∧
    (h.VerifyOTP mac (some ⟨p, c⟩) t1 t2 t3).2.otp.client.data (otpKey p) = none ∧
    ∀ dt : Nat,
      (({ (h.VerifyOTP mac (some ⟨p, c⟩) t1 t2 t3).2 with
            otp := (h.VerifyOTP mac (some ⟨p, c⟩) t1 t2 t3).2.otp.advance dt } : Handler).VerifyOTP
          mac (some ⟨p, c⟩) u1 u2 u3).1
        = { status := 401, body := .ErrorResponse "Invalid OTP" } := by
  subst hval
  have hV := Validate_hit hrel hrec
  -- the state of the one-time-code store after the first request, whatever the database did
  have key : ∃ (resp : Response) (s : db.Store),
      h.VerifyOTP mac (some ⟨p, e.val⟩) t1 t2 t3
        = (resp, { store := s, otp := (h.otp.Validate p e.val).2, jwtSecret := h.jwtSecret }) ∧
      resp.status = 500 ∧ ∃ msg : String, resp.body = .ErrorResponse msg := by
    unfold Handler.VerifyOTP
    simp only [hp, hc, or_self, if_false, hV]
    rcases hu : h.store.UserExists p with ⟨⟨ex, err⟩, s1⟩
    rw [hu] at hdb
    cases err with
    | some er =>
      exact ⟨_, _, rfl, rfl, _, rfl⟩
    | none =>
      rcases hdb with hbad | ⟨hfalse, hcr⟩
      · exact absurd rfl hbad
      · simp only [Prod.mk.injEq, and_true] at hfalse
        subst hfalse
        simp only [Bool.not_false, if_true, Bool.not_true, Bool.false_eq_true]
        rcases hcu : s1.CreateUser p with ⟨cerr, s2⟩
        rw [hcu] at hcr
        cases cerr with
        | none => exact absurd rfl hcr
        | some ce => exact ⟨_, _, rfl, rfl, _, rfl⟩
  obtain ⟨resp, s, hreq, hstatus, hbody⟩ := key
  rw [hreq]
  refine ⟨hstatus, hbody, ?_, ?_⟩
  · rw [hV]; simp
  · intro dt
    have hrel' : ((h.otp.Validate p e.val).2.advance dt).client.reliable := by
      rw [hV]; exact next_reliable (next_reliable hrel)
    have hnone : ((h.otp.Validate p e.val).2.advance dt).client.lookup (otpKey p) = none := by
      rw [hV]; simp [RedisOTP.advance, Client.advance, Client.lookup]
    have hv : (((h.otp.Validate p e.val).2.advance dt).Validate p e.val).1 = (false, none) := by
      rw [Validate_absent hrel' hnone]
    rw [VerifyOTP_invalid mac _ p e.val u1 u2 u3 hp hc hv]

theorem C13_code_consumed_before_user_store_witness :
    (brokenInsertHandler.VerifyOTP sampleMAC (some ⟨"+100", "123456"⟩) 1 2 3).1.status = 500 ∧
    (∃ msg : String,
      (brokenInsertHandler.VerifyOTP sampleMAC (some ⟨"+100", "123456"⟩) 1 2 3).1.body
        = .ErrorResponse msg) ∧
    (brokenInsertHandler.VerifyOTP sampleMAC (some ⟨"+100", "123456"⟩) 1 2 3).2.otp.client.data
      (otpKey "+100") = none ∧
    (({ (brokenInsertHandler.VerifyOTP sampleMAC (some ⟨"+100", "123456"⟩) 1 2 3).2 with
          otp := (brokenInsertHandler.VerifyOTP sampleMAC (some ⟨"+100", "123456"⟩)
            1 2 3).2.otp.advance 0 } : Handler).VerifyOTP
        sampleMAC (some ⟨"+100", "123456"⟩) 4 5 6).1
      = { status := 401, body := .ErrorResponse "Invalid OTP" } :=
  have h := C13_code_consumed_before_user_store sampleMAC brokenInsertHandler "+100" "123456"
    ⟨"123456", some 125⟩ 1 2 3 4 5 6 (by decide) (by decide) (by decide) (by decide) rfl
    (Or.inr (by decide))
  ⟨h.1, h.2.1, h.2.2.1, h.2.2.2 0⟩

/-- C13 (as stated) fails: the `GET` of `Validate` finds the code `123456` valid, its `DEL`
fails and the error is discarded, then `UserExists` fails. The handler answers 500, the
record under `otp:+100` is still there, and the same request repeated is answered 200
with a token. -/
theorem C13_counterexample :
    (delFailsHandler.otp.Validate "+100" "123456").1 = (true, none) ∧
    (delFailsHandler.store.UserExists "+100").1.2 ≠ none ∧
    (delFailsHandler.VerifyOTP sampleMAC (some ⟨"+100", "123456"⟩) 1 2 3).1
      = { status := 500,
          body := .ErrorResponse "Database temporarily unavailable. Please try again." } ∧
    (delFailsHandler.VerifyOTP sampleMAC (some ⟨"+100", "123456"⟩) 1 2 3).2.otp.client.data
      (otpKey "+100") = some ⟨"123456", some 125⟩ ∧
    ((delFailsHandler.VerifyOTP sampleMAC (some ⟨"+100", "123456"⟩) 1 2 3).2.VerifyOTP
        sampleMAC (some ⟨"+100", "123456"⟩) 4 5 6).1
      = { status := 200,
          body := .VerifyOTPResponse "Login success"
            (auth.GenerateJWT sampleMAC "+100" "k" 4 5 6).1 } := by
  refine ⟨by decide, by decide, by decide, by decide, by decide⟩

end api

end Dekamond
